import Mathlib

/-!
# Assessment recommendation engine: `recommendationService.js`

A shallow embedding of `src/services/recommendationService.js` and the
properties of its recommendation pipeline.

Conventions of the embedding.

* JavaScript strings are Lean `String`s; character-level work is done on
  `String.data`.  `String.prototype.toLowerCase` is the ASCII lower-casing of
  every character, which is what JavaScript computes on text without
  non-ASCII cased letters.
* The `natural` package (tokenizer, Porter stemmer, TF-IDF) is not part of the
  repository: it is the parameter `Natural` of every function that uses it.
* The network fetch and the catalog provider are the parameter `Collaborators`.
* A thrown `Error` is `Except.error` carrying the message of the error.
* Numbers: a JavaScript number is a `JsNumber`, a rational (every finite
  double is one), `NaN` or an infinity; arithmetic on finite numbers is exact,
  of which JavaScript returns the double rounding, and the sign of a
  difference of finite doubles is the sign of the exact difference.  The
  integers read by `parseInt` are exact integers: JavaScript returns the same
  integer up to `2^53`, and the statements that depend on the value read carry
  that bound.
-/

namespace RecommendationService

/-! ## JavaScript built-ins -/

/-- `String.prototype.toLowerCase`, on text whose cased letters are ASCII. -/
def toLowerCase (s : String) : String := ⟨s.data.map Char.toLower⟩

/-- `haystack.includes(needle)` on character lists: `needle` starts at some
position of `haystack`. -/
def includesChars (needle : List Char) : List Char → Bool
  | [] => needle.isPrefixOf []
  | c :: rest => needle.isPrefixOf (c :: rest) || includesChars needle rest

/-- `String.prototype.includes`. -/
def includes (haystack needle : String) : Bool := includesChars needle.data haystack.data

/-- The class `\d` of a regular expression, which is also a decimal digit of `parseInt`. -/
def isDigit (c : Char) : Bool := decide (48 ≤ c.toNat) && decide (c.toNat ≤ 57)

/-- The class `\s` of a regular expression, which is also the white space that
`parseInt` skips: WhiteSpace and LineTerminator of ECMAScript. -/
def isWhiteSpace (c : Char) : Bool :=
  let n := c.toNat
  n == 9 || n == 10 || n == 11 || n == 12 || n == 13 || n == 32 || n == 160 || n == 5760 ||
  (decide (8192 ≤ n) && decide (n ≤ 8202)) || n == 8232 || n == 8233 || n == 8239 ||
  n == 8287 || n == 12288 || n == 65279

/-- Value of a character as a digit in the given radix (10 or 16). -/
def digitValue (radix : Nat) (c : Char) : Option Nat :=
  let n := c.toNat
  if 48 ≤ n ∧ n ≤ 57 then some (n - 48)
  else if radix = 16 ∧ 97 ≤ n ∧ n ≤ 102 then some (n - 87)
  else if radix = 16 ∧ 65 ≤ n ∧ n ≤ 70 then some (n - 55)
  else none

/-- Reads the longest prefix of digits of the radix, most significant first;
`acc` is the value read so far and the flag tells whether a digit was read. -/
def readDigits (radix : Nat) : Nat → Bool → List Char → Option Nat
  | acc, seen, [] => if seen then some acc else none
  | acc, seen, c :: rest =>
    match digitValue radix c with
    | some d => readDigits radix (radix * acc + d) true rest
    | none => if seen then some acc else none

/-- The digits of `parseInt` after white space and sign: a `0x` or `0X` prefix
selects radix 16. -/
def parseUnsigned : List Char → Option Nat
  | '0' :: 'x' :: rest => readDigits 16 0 false rest
  | '0' :: 'X' :: rest => readDigits 16 0 false rest
  | cs => readDigits 10 0 false cs

/-- `parseInt(string)` with no radix argument; `none` is `NaN`.  The value is
the exact integer written in the string, which is what JavaScript returns when
that integer is at most `2^53` in magnitude; beyond, JavaScript returns a
double near it. -/
def parseInt (s : String) : Option Int :=
  match s.data.dropWhile isWhiteSpace with
  | '-' :: rest => (parseUnsigned rest).map (fun n => - (n : Int))
  | '+' :: rest => (parseUnsigned rest).map (fun n => (n : Int))
  | cs => (parseUnsigned cs).map (fun n => (n : Int))

/-- Result of a JavaScript division of two finite numbers. -/
inductive JsNumber where
  | finite (q : ℚ)
  | nan
  | posInfinity
  | negInfinity
  deriving DecidableEq

/-- JavaScript `a / b` for finite `a` and `b`. -/
def jsDiv (a b : ℚ) : JsNumber :=
  if b = 0 then
    if a = 0 then JsNumber.nan
    else if 0 < a then JsNumber.posInfinity else JsNumber.negInfinity
  else JsNumber.finite (a / b)

/-- JavaScript `a - b`; the difference of two finite numbers is exact, and has
the sign of the double that JavaScript returns. -/
def jsSub : JsNumber → JsNumber → JsNumber
  | JsNumber.finite a, JsNumber.finite b => JsNumber.finite (a - b)
  | JsNumber.nan, _ => JsNumber.nan
  | _, JsNumber.nan => JsNumber.nan
  | JsNumber.posInfinity, JsNumber.posInfinity => JsNumber.nan
  | JsNumber.negInfinity, JsNumber.negInfinity => JsNumber.nan
  | JsNumber.posInfinity, _ => JsNumber.posInfinity
  | JsNumber.negInfinity, _ => JsNumber.negInfinity
  | JsNumber.finite _, JsNumber.posInfinity => JsNumber.negInfinity
  | JsNumber.finite _, JsNumber.negInfinity => JsNumber.posInfinity

/-- Whether a number is greater than zero; `NaN` is not. -/
def isPositive : JsNumber → Bool
  | JsNumber.finite q => decide (0 < q)
  | JsNumber.posInfinity => true
  | JsNumber.nan => false
  | JsNumber.negInfinity => false

/-- `Array.prototype.sort(comparefn)`: a stable sort in which `a` stays before
`b` unless `comparefn a b` is greater than zero, a result `NaN` of the
comparator counting as `0`.  For a comparator that orders the elements
consistently, every stable sort returns this list; for another one (scores
that are `NaN`) ECMAScript leaves the order to the engine, and this is the
order of an insertion sort. -/
def sort {α : Type} (comparefn : α → α → JsNumber) (l : List α) : List α :=
  l.insertionSort (fun a b => isPositive (comparefn a b) = false)

/-! ## Collaborators that are not part of the repository -/

/-- The functions of the `natural` package that the service calls. -/
structure Natural where
  /-- The method `WordTokenizer.tokenize`. -/
  tokenize : String → List String
  /-- The method `PorterStemmer.stem`. -/
  stem : String → String
  /-- The measures that `TfIdf.tfidfs(terms, callback)` hands to its callback,
  by document index, for the documents added since the reset; a measure can be
  `NaN`. -/
  tfidfs : List String → String → List JsNumber

/-- An assessment record of the catalog. -/
structure Assessment where
  name : String
  url : String
  remoteTestingSupport : String
  adaptiveSupport : String
  duration : String
  testType : String
  deriving DecidableEq, Repr

/-- The network fetch and the catalog provider. -/
structure Collaborators where
  /-- The calls `fetch(url)` and `response.text()`; an error is a rejection. -/
  fetch : String → Except String String
  /-- The provider `getAssessments()` of `dataService.js`. -/
  getAssessments : Except String (List Assessment)

/-! ## The skill taxonomy -/

/-- Keys of `skillKeywords`. -/
inductive Skill where
  | programming
  | dataAnalysis
  | leadership
  | communication
  | customerService
  | sales
  | projectManagement
  deriving DecidableEq, Repr

/-- `Object.keys(skillKeywords)`, in insertion order. -/
def skillKeys : List Skill :=
  [Skill.programming, Skill.dataAnalysis, Skill.leadership, Skill.communication,
   Skill.customerService, Skill.sales, Skill.projectManagement]

/-- The table `skillKeywords`. -/
def skillKeywords : Skill → List String
  | Skill.programming =>
    ["coding", "developer", "software", "engineer", "javascript", "python", "java", "html",
     "css", "web"]
  | Skill.dataAnalysis =>
    ["data", "analytics", "statistics", "analysis", "sql", "database", "excel",
     "visualization", "reporting"]
  | Skill.leadership =>
    ["leadership", "management", "supervisor", "team lead", "director", "executive", "manage"]
  | Skill.communication =>
    ["communication", "writing", "speaking", "presentation", "interpersonal", "verbal",
     "written"]
  | Skill.customerService =>
    ["customer", "service", "support", "client", "satisfaction", "helpdesk"]
  | Skill.sales =>
    ["sales", "selling", "business development", "account", "revenue", "quota", "negotiate"]
  | Skill.projectManagement =>
    ["project", "management", "agile", "scrum", "waterfall", "planning", "coordination"]

/-! ## Feature extraction -/

/-- `preprocessText`: lower-case, tokenize, stem every token. -/
def preprocessText (nat : Natural) (text : String) : List String :=
  (nat.tokenize (toLowerCase text)).map nat.stem

/-- Whether the characters start with `word`, letters compared without case
(the flag `i` of the pattern, whose words are ASCII). -/
def startsWithIgnoreCase (word : List Char) (cs : List Char) : Bool :=
  word.isPrefixOf ((cs.take word.length).map Char.toLower)

/-- The alternation `(?:min|hour|minute)` at the start of the characters. -/
def unitAt (cs : List Char) : Bool :=
  startsWithIgnoreCase "min".data cs || startsWithIgnoreCase "hour".data cs ||
  startsWithIgnoreCase "minute".data cs

/-- The tail `\s*(?:min|hour|minute)` of the pattern at the start of the
characters: white space is taken greedily and given back on failure. -/
def spacesThenUnit : List Char → Bool
  | [] => unitAt []
  | c :: rest => (isWhiteSpace c && spacesThenUnit rest) || unitAt (c :: rest)

/-- The pattern `(\d+)\s*(?:min|hour|minute)` anchored at the start of the
characters, `group` being the digits already taken by `(\d+)`: digits are taken
greedily and given back on failure.  The result is the capture group. -/
def durationFrom (group : List Char) : List Char → Option (List Char)
  | [] => none
  | c :: rest =>
    if isDigit c then
      match durationFrom (group ++ [c]) rest with
      | some g => some g
      | none =>
        if !group.isEmpty && spacesThenUnit (c :: rest) then some group else none
    else if !group.isEmpty && spacesThenUnit (c :: rest) then some group else none

/-- `text.match(/(\d+)\s*(?:min|hour|minute)/i)`: the capture group of the
leftmost match. -/
def durationMatch : List Char → Option (List Char)
  | [] => none
  | c :: rest =>
    match durationFrom [] (c :: rest) with
    | some g => some g
    | none => durationMatch rest

/-- The value `QueryFeatures` returned by `extractFeatures`. -/
structure Features where
  skills : List Skill
  maxDuration : Option Int
  tokens : List String

/-- The test `tokens.includes(kw)` for `kw = preprocessText(keyword)[0]`, which
is `undefined` when the keyword has no token. -/
def tokenFound (tokens : List String) : Option String → Bool
  | some kw => tokens.contains kw
  | none => false

/-- `extractFeatures`. -/
def extractFeatures (nat : Natural) (text : String) : Features :=
  let tokens := preprocessText nat text
  let skills := skillKeys.filter (fun skill =>
    let keywords := (skillKeywords skill).map (fun kw => (preprocessText nat kw).head?)
    keywords.any (fun kw => tokenFound tokens kw))
  let maxDuration :=
    match durationMatch text.data with
    | some g => parseInt ⟨g⟩
    | none => none
  { skills := skills, maxDuration := maxDuration, tokens := tokens }

/-- The skill test as the specification words it: the first stemmed token of
the first keyword of the category occurs among the tokens of the text. -/
def firstKeywordFound (nat : Natural) (text : String) (skill : Skill) : Bool :=
  match (skillKeywords skill).head? with
  | some kw => tokenFound (preprocessText nat text) (preprocessText nat kw).head?
  | none => false

/-- Decimal value of a list of decimal digits, most significant first. -/
def decimalValue (digits : List Char) : Nat :=
  digits.foldl (fun acc c => 10 * acc + (c.toNat - 48)) 0

/-- The integer a string starts with: the value of its longest prefix of
decimal digits, when that prefix is not empty. -/
def leadingInteger (s : String) : Option Nat :=
  if (s.data.takeWhile isDigit).isEmpty then none
  else some (decimalValue (s.data.takeWhile isDigit))

/-- The first (leftmost) maximal run of digits such that `follows` accepts the
characters after the run; `run` is the run in progress, empty outside a run. -/
def firstRunFollowedBy (follows : List Char → Bool) (run : List Char) :
    List Char → Option (List Char)
  | [] => if !run.isEmpty && follows [] then some run else none
  | c :: rest =>
    if isDigit c then firstRunFollowedBy follows (run ++ [c]) rest
    else if !run.isEmpty && follows (c :: rest) then some run
    else firstRunFollowedBy follows [] rest

/-- A unit follows after optional white space: the characters, white space
skipped, start with `min`, `hour` or `minute` in any case. -/
def unitAfterSpaces (cs : List Char) : Bool := unitAt (cs.dropWhile isWhiteSpace)

/-- Whether the characters start with `word`, in any case, and the word ends there. -/
def wordAt (word : List Char) (cs : List Char) : Bool :=
  startsWithIgnoreCase word cs &&
    match cs.drop word.length with
    | [] => true
    | c :: _ => !c.isAlphanum

/-- One of the unit words `min`, `minute`, `hour` stands, as a whole word, at
the start of the characters. -/
def unitWordAt (cs : List Char) : Bool :=
  wordAt "min".data cs || wordAt "minute".data cs || wordAt "hour".data cs

/-- The duration as the specification words it, on a reading of `follows`: the
integer value of the first run of digits that the unit follows, unset when
there is none. -/
def firstDuration (follows : List Char → Bool) (text : String) : Option Int :=
  (firstRunFollowedBy follows [] text.data).map (fun run => ((decimalValue run : Nat) : Int))

/-! ## Rule-based filtering -/

/-- The test `if (features.maxDuration)` followed by
`parseInt(assessment.duration) > features.maxDuration`: the constraint is
consulted when it is neither `null` nor `0`, and a comparison with `NaN` is
false. -/
def exceedsDuration (features : Features) (assessment : Assessment) : Bool :=
  match features.maxDuration with
  | none => false
  | some maxDuration =>
    if maxDuration = 0 then false
    else
      match parseInt assessment.duration with
      | some durationMinutes => decide (durationMinutes > maxDuration)
      | none => false

/-- The template string of name and test type, lower-cased. -/
def assessmentText (assessment : Assessment) : String :=
  toLowerCase (assessment.name ++ " " ++ assessment.testType)

/-- The skill test of the filter: some keyword of some detected skill is
included in the assessment text. -/
def matchesSkills (skills : List Skill) (assessment : Assessment) : Bool :=
  skills.any (fun skill =>
    (skillKeywords skill).any (fun keyword =>
      includes (assessmentText assessment) (toLowerCase keyword)))

/-- The callback of the filter in `ruleBasedFiltering`. -/
def keepAssessment (features : Features) (assessment : Assessment) : Bool :=
  if exceedsDuration features assessment then false
  else if features.skills.length = 0 then true
  else matchesSkills features.skills assessment

/-- `ruleBasedFiltering`. -/
def ruleBasedFiltering (assessments : List Assessment) (features : Features) :
    List Assessment :=
  assessments.filter (keepAssessment features)

/-- Case-insensitive substring: the lower-cased `needle` occurs in the
lower-cased `haystack`. -/
def SubstringIgnoreCase (needle haystack : String) : Prop :=
  ∃ before after : List Char,
    (toLowerCase haystack).data = before ++ (toLowerCase needle).data ++ after

/-- The skill rule on a text of the record: no skill was detected, or some
keyword of some detected category is a case-insensitive substring of the text. -/
def SkillRule (skills : List Skill) (text : String) : Prop :=
  skills = [] ∨
    ∃ skill ∈ skills, ∃ keyword ∈ skillKeywords skill, SubstringIgnoreCase keyword text

/-- A record whose name ends with the first word of the keyword `team lead`
and whose test type starts with its second word. -/
def teamLeadAssessment : Assessment :=
  { name := "Agile Team", url := "https://www.shl.com/products/agile-team/",
    remoteTestingSupport := "Yes", adaptiveSupport := "No",
    duration := "30 minutes", testType := "Lead Assessment" }

/-! ## Ranking -/

/-- An assessment paired with its similarity score. -/
structure Scored where
  assessment : Assessment
  score : JsNumber
  deriving DecidableEq

/-- `Array.prototype.join(' ')`. -/
def joinWords (words : List String) : String := " ".intercalate words

/-- The document text of an assessment in the TF-IDF corpus. -/
def assessmentDocument (nat : Natural) (assessment : Assessment) : String :=
  joinWords (preprocessText nat (assessment.name ++ " " ++ assessment.testType))

/-- The corpus of `mlBasedRanking` after the reset: the query first, then one
document per assessment. -/
def corpus (nat : Natural) (assessments : List Assessment) (query : String) : List String :=
  joinWords (preprocessText nat query) :: assessments.map (assessmentDocument nat)

/-- The array `scores` of `mlBasedRanking`: the similarity of assessment `i` is
the measure reported for document `i + 1`, and stays `0` when none is. -/
def similarityScores (nat : Natural) (assessments : List Assessment) (query : String) :
    List Scored :=
  let measures := nat.tfidfs (corpus nat assessments query) (joinWords (preprocessText nat query))
  assessments.mapIdx (fun i assessment =>
    { assessment := assessment, score := measures.getD (i + 1) (JsNumber.finite 0) })

/-- `mlBasedRanking`. -/
def mlBasedRanking (nat : Natural) (assessments : List Assessment) (query : String) :
    List Scored :=
  sort (fun a b => jsSub b.score a.score) (similarityScores nat assessments query)

/-! ## The recommendation pipeline -/

/-- `fetchUrlContent`. -/
def fetchUrlContent (io : Collaborators) (url : String) : Except String String :=
  match io.fetch url with
  | Except.ok text => Except.ok text
  | Except.error _ => Except.error "Failed to fetch URL content"

/-- The list `assessmentsForRanking` of `getRecommendations`: the filtered
catalog, or the first 10 records of the catalog when the filter leaves none. -/
def assessmentsForRanking (nat : Natural) (allAssessments : List Assessment)
    (queryText : String) : List Assessment :=
  let features := extractFeatures nat queryText
  let filteredAssessments := ruleBasedFiltering allAssessments features
  if filteredAssessments.length > 0 then filteredAssessments else allAssessments.take 10

/-- The pipeline of `getRecommendations` from the query text on, given the catalog. -/
def recommendFrom (nat : Natural) (allAssessments : List Assessment) (queryText : String) :
    List Assessment :=
  let rankedAssessments :=
    mlBasedRanking nat (assessmentsForRanking nat allAssessments queryText) queryText
  (rankedAssessments.take 10).map (fun item => item.assessment)

/-- The body of the `try` block of `getRecommendations`. -/
def getRecommendationsBody (nat : Natural) (io : Collaborators) (input : String)
    (isUrl : Bool) : Except String (List Assessment) :=
  match (if isUrl then fetchUrlContent io input else Except.ok input) with
  | Except.error e => Except.error e
  | Except.ok queryText =>
    match io.getAssessments with
    | Except.error e => Except.error e
    | Except.ok allAssessments => Except.ok (recommendFrom nat allAssessments queryText)

/-- `getRecommendations`: whatever the body throws is caught and replaced. -/
def getRecommendations (nat : Natural) (io : Collaborators) (input : String)
    (isUrl : Bool) : Except String (List Assessment) :=
  match getRecommendationsBody nat io input isUrl with
  | Except.ok recommendations => Except.ok recommendations
  | Except.error _ => Except.error "Failed to generate recommendations"

/-! ## Metrics -/

/-- The result of `calculateMetrics`. -/
structure Metrics where
  «recall» : JsNumber
  map : JsNumber
  deriving DecidableEq

/-- The cutoff `topK`. -/
def topK : Nat := 3

/-- The set `relevantIds`: the distinct names of the relevant assessments. -/
def relevantIds (relevantAssessments : List Assessment) : List String :=
  (relevantAssessments.map (fun a => a.name)).dedup

/-- The test `relevantIds.has(topKRecommendations[i]?.name)`: beyond the end the
name is `undefined`, which no set of names contains. -/
def hasRelevantAt (ids : List String) (topKRecommendations : List Assessment) (i : Nat) :
    Bool :=
  match topKRecommendations.get? i with
  | some r => ids.contains r.name
  | none => false

/-- One iteration of the loop of `calculateMetrics` on the pair
`(ap, relevantSoFar)`. -/
def mapStep (ids : List String) (topKRecommendations : List Assessment)
    (state : ℚ × Nat) (i : Nat) : ℚ × Nat :=
  if hasRelevantAt ids topKRecommendations i then
    (state.1 + ((state.2 + 1 : Nat) : ℚ) / ((i + 1 : Nat) : ℚ), state.2 + 1)
  else state

/-- The loop `for (let i = 0; i < topK; i++)` of `calculateMetrics`. -/
def mapLoop (ids : List String) (topKRecommendations : List Assessment) : ℚ × Nat :=
  (List.range topK).foldl (mapStep ids topKRecommendations) (0, 0)

/-- `calculateMetrics`. -/
def calculateMetrics (recommendations relevantAssessments : List Assessment) : Metrics :=
  let ids := relevantIds relevantAssessments
  let topKRecommendations := recommendations.take topK
  let relevantFound := (topKRecommendations.filter (fun r => ids.contains r.name)).length
  let recallValue := jsDiv (relevantFound : ℚ) ((min ids.length topK : Nat) : ℚ)
  let loop := mapLoop ids topKRecommendations
  let mapValue := if loop.2 > 0 then jsDiv loop.1 (loop.2 : ℚ) else JsNumber.finite 0
  { «recall» := recallValue, map := mapValue }

/-- The names of the first `topK` recommendations. -/
def topNames (recommendations : List Assessment) : List String :=
  (recommendations.take topK).map (fun r => r.name)

/-- Recall as the specification words it: the number of relevant names that
are present among the names of the first 3 recommendations, over the smaller
of the number of relevant names and 3. -/
def recallOfNames (recommendations relevantAssessments : List Assessment) : ℚ :=
  ((((relevantIds relevantAssessments).filter
      (fun name => (topNames recommendations).contains name)).length : Nat) : ℚ) /
    ((min (relevantIds relevantAssessments).length topK : Nat) : ℚ)

/-- The number of the first 3 recommendations whose name is a relevant name. -/
def relevantRecommendations (recommendations relevantAssessments : List Assessment) : Nat :=
  ((recommendations.take topK).filter
    (fun r => decide (r.name ∈ relevantAssessments.map (fun a => a.name)))).length

/-- Whether the recommendation at the 1-indexed position `i` has a name that
occurs in the relevant list. -/
def relevantAtPosition (recommendations relevantAssessments : List Assessment) (i : Nat) : Bool :=
  match recommendations.get? (i - 1) with
  | some r => decide (r.name ∈ relevantAssessments.map (fun a => a.name))
  | none => false

/-- The 1-indexed positions `i ≤ 3` whose recommendation name is in the relevant list. -/
def relevantPositions (recommendations relevantAssessments : List Assessment) : List Nat :=
  [1, 2, 3].filter (relevantAtPosition recommendations relevantAssessments)

/-- Mean average precision as the specification words it: the sum over the
relevant positions `i` of `r_i / i`, where `r_i` is the number of relevant
positions up to and including `i`, divided by the number of relevant positions,
and `0` when there is none. -/
def mapOfPositions (recommendations relevantAssessments : List Assessment) : ℚ :=
  let positions := relevantPositions recommendations relevantAssessments
  if positions.isEmpty then 0
  else
    (positions.map (fun i =>
      (((positions.filter (fun j => decide (j ≤ i))).length : Nat) : ℚ) /
        ((i : Nat) : ℚ))).sum /
      ((positions.length : Nat) : ℚ)

/-! ## A concrete instance of the `natural` package for examples -/

/-- A word character of `WordTokenizer`, whose pattern splits the text at the
runs of characters outside `A-Za-zА-Яа-я0-9_`. -/
def isWordChar (c : Char) : Bool :=
  let n := c.toNat
  (decide (65 ≤ n) && decide (n ≤ 90)) || (decide (97 ≤ n) && decide (n ≤ 122)) ||
  (decide (48 ≤ n) && decide (n ≤ 57)) || n == 95 ||
  (decide (1040 ≤ n) && decide (n ≤ 1103))

/-- The maximal runs of word characters, `current` being the run in progress. -/
def wordRuns (current : List Char) : List Char → List String
  | [] => if current.isEmpty then [] else [⟨current⟩]
  | c :: rest =>
    if isWordChar c then wordRuns (current ++ [c]) rest
    else if current.isEmpty then wordRuns [] rest
    else ⟨current⟩ :: wordRuns [] rest

/-- `WordTokenizer.tokenize`: the non-empty pieces between separators. -/
def wordTokenizer (text : String) : List String := wordRuns [] text.data

/-- Porter stems of the words of the examples (the first words of the taxonomy
keywords, the example queries, the example records), for the words that the
stemmer changes. -/
def porterStems : List (String × String) :=
  [("coding", "code"), ("developer", "develop"), ("software", "softwar"),
   ("engineer", "engin"), ("analytics", "analyt"), ("statistics", "statist"),
   ("analysis", "analysi"), ("database", "databas"), ("visualization", "visual"),
   ("reporting", "report"), ("management", "manag"), ("executive", "execut"),
   ("manage", "manag"), ("communication", "commun"), ("writing", "write"),
   ("speaking", "speak"), ("presentation", "present"), ("interpersonal", "interperson"),
   ("customer", "custom"), ("service", "servic"), ("satisfaction", "satisfact"),
   ("sales", "sale"), ("selling", "sell"), ("business", "busi"), ("revenue", "revenu"),
   ("negotiate", "negoti"), ("agile", "agil"), ("waterfall", "waterfal"),
   ("planning", "plan"), ("coordination", "coordin"), ("looking", "look"),
   ("experience", "experi"), ("manager", "manag"), ("position", "posit"),
   ("requiring", "requir"), ("building", "build"), ("skills", "skill"),
   ("verify", "verifi"), ("numerical", "numer"), ("reasoning", "reason"),
   ("assessment", "assess"), ("cognitive", "cognit"), ("ability", "abil"),
   ("technical", "technic"), ("basics", "basic")]

/-- `PorterStemmer.stem` on the vocabulary of the examples: the other words of
that vocabulary are their own stems. -/
def porterStem (word : String) : String :=
  match porterStems.lookup word with
  | some stem => stem
  | none => word

/-- A stand-in for the TF-IDF measures: for every document, the number of its
words that are query terms.  It is used in the examples whose statements do
not depend on the measures. -/
def overlapMeasures (documents : List String) (terms : String) : List JsNumber :=
  documents.map (fun document =>
    JsNumber.finite
      (((wordTokenizer document).filter (fun w => (wordTokenizer terms).contains w)).length : ℚ))

/-- The instance of `Natural` used in the examples. -/
def naturalExample : Natural :=
  { tokenize := wordTokenizer, stem := porterStem, tfidfs := overlapMeasures }

/-- The first record of `mockAssessments`. -/
def numericalAssessment : Assessment :=
  { name := "SHL Verify Numerical Reasoning Assessment",
    url := "https://www.shl.com/products/verify-numerical-reasoning/",
    remoteTestingSupport := "Yes", adaptiveSupport := "Yes",
    duration := "35 minutes", testType := "Cognitive Ability" }

/-- The second record of `mockAssessments`. -/
def codingProAssessment : Assessment :=
  { name := "SHL Coding Pro Assessment",
    url := "https://www.shl.com/products/coding-pro/",
    remoteTestingSupport := "Yes", adaptiveSupport := "No",
    duration := "60 minutes", testType := "Technical Skills" }

/-- The third record of `mockAssessments`. -/
def leadershipAssessment : Assessment :=
  { name := "SHL Leadership Assessment",
    url := "https://www.shl.com/products/leadership-assessment/",
    remoteTestingSupport := "Yes", adaptiveSupport := "No",
    duration := "45 minutes", testType := "Leadership" }

/-- The catalog `mockAssessments` of `recommendationService.test.js`. -/
def mockAssessments : List Assessment :=
  [numericalAssessment, codingProAssessment, leadershipAssessment]

/-- The collaborators of the test file: a catalog provider that returns
`mockAssessments` and a fetch that fails. -/
def mockCollaborators : Collaborators :=
  { fetch := fun _ => Except.error "getaddrinfo ENOTFOUND",
    getAssessments := Except.ok mockAssessments }

/-- Collaborators whose catalog provider fails, the fetch succeeding. -/
def failingCatalog : Collaborators :=
  { fetch := fun _ => Except.ok "Team manager position requiring leadership skills",
    getAssessments := Except.error "Failed to load assessment data" }

/-- The value of a finite number, and `0` for the others. -/
def numberValue : JsNumber → ℚ
  | JsNumber.finite q => q
  | _ => 0

/-- A catalog of four records, of which the first and the third do not
mention the word `constructor`. -/
def constructorCatalog : List Assessment :=
  [{ name := "Alpha", url := "https://www.shl.com/products/alpha/",
     remoteTestingSupport := "Yes", adaptiveSupport := "No",
     duration := "30 minutes", testType := "Java" },
   { name := "Constructor Basics", url := "https://www.shl.com/products/constructor-basics/",
     remoteTestingSupport := "Yes", adaptiveSupport := "No",
     duration := "30 minutes", testType := "Java" },
   { name := "Gamma", url := "https://www.shl.com/products/gamma/",
     remoteTestingSupport := "Yes", adaptiveSupport := "No",
     duration := "30 minutes", testType := "Python" },
   { name := "Java Constructor", url := "https://www.shl.com/products/java-constructor/",
     remoteTestingSupport := "Yes", adaptiveSupport := "No",
     duration := "30 minutes", testType := "Java" }]

/-- The measures that `TfIdf.tfidfs` reports for the query `java constructor`
on the corpus of that query and `constructorCatalog`, the finite ones to four
decimals (`1 + (1 + ln (5 / 4))` for the query and for the second record,
`2 + (1 + ln (5 / 4))` for the fourth).  A document without the term
`constructor` gets `NaN`: the term frequency is read as the property
`constructor` of the document object, which every object inherits. -/
def constructorMeasures : List JsNumber :=
  [JsNumber.finite (22231 / 10000), JsNumber.nan, JsNumber.finite (22231 / 10000),
   JsNumber.nan, JsNumber.finite (32231 / 10000)]

/-- The instance of `Natural` for the query `java constructor` on
`constructorCatalog`. -/
def naturalConstructor : Natural :=
  { tokenize := wordTokenizer, stem := porterStem, tfidfs := fun _ _ => constructorMeasures }

/-- An object that has only a `name`, as the test of `calculateMetrics` builds them. -/
def named (name : String) : Assessment :=
  { name := name, url := "", remoteTestingSupport := "", adaptiveSupport := "",
    duration := "", testType := "" }

/-! ## Lemmas on the built-ins -/

section Builtins

theorem includesChars_iff (needle haystack : List Char) :
    includesChars needle haystack = true ↔
      ∃ before after, haystack = before ++ needle ++ after := by
  induction haystack with
  | nil =>
    simp only [includesChars, List.isPrefixOf_iff_prefix]
    constructor
    · intro h
      exact ⟨[], [], by simp [List.prefix_nil.mp h]⟩
    · rintro ⟨before, after, h⟩
      have h1 : before ++ needle ++ after = [] := h.symm
      simp only [List.append_eq_nil] at h1
      rw [h1.1.2]
  | cons c rest ih =>
    simp only [includesChars, Bool.or_eq_true, List.isPrefixOf_iff_prefix, ih]
    constructor
    · rintro (⟨after, h⟩ | ⟨before, after, h⟩)
      · exact ⟨[], after, by simpa using h.symm⟩
      · exact ⟨c :: before, after, by simp [h]⟩
    · rintro ⟨before, after, h⟩
      cases before with
      | nil => exact Or.inl ⟨after, by simpa using h.symm⟩
      | cons b before =>
        simp only [List.cons_append, List.cons.injEq] at h
        exact Or.inr ⟨before, after, h.2⟩

theorem toLowerCase_append (a b : String) :
    toLowerCase (a ++ b) = toLowerCase a ++ toLowerCase b := by
  simp [toLowerCase, String.ext_iff]

theorem includes_append_left (a b needle : String) (h : includes a needle = true) :
    includes (a ++ b) needle = true := by
  unfold includes at *
  rw [includesChars_iff] at *
  obtain ⟨before, after, h⟩ := h
  exact ⟨before, after ++ b.data, by simp [h]⟩

theorem includes_append_right (a b needle : String) (h : includes b needle = true) :
    includes (a ++ b) needle = true := by
  unfold includes at *
  rw [includesChars_iff] at *
  obtain ⟨before, after, h⟩ := h
  exact ⟨a.data ++ before, after, by simp [h]⟩

theorem length_sort {α : Type} (comparefn : α → α → JsNumber) (l : List α) :
    (sort comparefn l).length = l.length :=
  (List.perm_insertionSort _ l).length_eq

theorem perm_sort {α : Type} (comparefn : α → α → JsNumber) (l : List α) :
    (sort comparefn l).Perm l :=
  List.perm_insertionSort _ l

end Builtins

/-! ## Lemmas on the pipeline -/

section Pipeline

theorem length_similarityScores (nat : Natural) (assessments : List Assessment)
    (query : String) : (similarityScores nat assessments query).length = assessments.length := by
  simp [similarityScores]

theorem map_assessment_similarityScores (nat : Natural) (assessments : List Assessment)
    (query : String) :
    (similarityScores nat assessments query).map (fun item => item.assessment) = assessments := by
  apply List.ext_getElem
  · simp [similarityScores]
  · intro i h1 h2
    simp [similarityScores]

theorem length_mlBasedRanking (nat : Natural) (assessments : List Assessment)
    (query : String) : (mlBasedRanking nat assessments query).length = assessments.length := by
  rw [mlBasedRanking, length_sort, length_similarityScores]

theorem perm_mlBasedRanking (nat : Natural) (assessments : List Assessment) (query : String) :
    ((mlBasedRanking nat assessments query).map (fun item => item.assessment)).Perm
      assessments := by
  have h := (perm_sort (fun a b : Scored => jsSub b.score a.score)
    (similarityScores nat assessments query)).map (fun item => item.assessment)
  rw [map_assessment_similarityScores] at h
  exact h

theorem recommendFrom_eq (nat : Natural) (allAssessments : List Assessment)
    (queryText : String) :
    recommendFrom nat allAssessments queryText =
      ((mlBasedRanking nat (assessmentsForRanking nat allAssessments queryText) queryText).take
        10).map (fun item => item.assessment) := rfl

theorem assessmentsForRanking_ne_nil (nat : Natural) (allAssessments : List Assessment)
    (queryText : String) (h : allAssessments ≠ []) :
    assessmentsForRanking nat allAssessments queryText ≠ [] := by
  unfold assessmentsForRanking
  dsimp only
  split
  · rename_i hpos
    exact List.ne_nil_of_length_pos hpos
  · cases allAssessments with
    | nil => exact absurd rfl h
    | cons a rest => simp

theorem length_recommendFrom (nat : Natural) (allAssessments : List Assessment)
    (queryText : String) :
    (recommendFrom nat allAssessments queryText).length =
      min 10 (assessmentsForRanking nat allAssessments queryText).length := by
  rw [recommendFrom_eq, List.length_map, List.length_take, length_mlBasedRanking]

theorem getRecommendations_text (nat : Natural) (io : Collaborators) (queryText : String)
    (catalog : List Assessment) (h : io.getAssessments = Except.ok catalog) :
    getRecommendations nat io queryText false =
      Except.ok (recommendFrom nat catalog queryText) := by
  simp [getRecommendations, getRecommendationsBody, h]

end Pipeline

/-! ## Claims -/

/-- C1. For every non-empty catalog returned by the catalog provider and every
query text, the empty one included, `getRecommendations` with `isUrl = false`
returns a list of at least 1 and at most 10 records. -/
theorem getRecommendations_length (nat : Natural) (io : Collaborators) (queryText : String)
    (catalog : List Assessment) (hcatalog : io.getAssessments = Except.ok catalog)
    (hne : catalog ≠ []) :
    ∃ recommendations, getRecommendations nat io queryText false = Except.ok recommendations ∧
      1 ≤ recommendations.length ∧ recommendations.length ≤ 10 := by
  refine ⟨recommendFrom nat catalog queryText,
    getRecommendations_text nat io queryText catalog hcatalog, ?_, ?_⟩
  · rw [length_recommendFrom]
    have h := List.length_pos.mpr (assessmentsForRanking_ne_nil nat catalog queryText hne)
    omega
  · rw [length_recommendFrom]
    omega

theorem getRecommendations_length_witness :
    ∃ recommendations,
      getRecommendations naturalExample mockCollaborators "" false = Except.ok recommendations ∧
      1 ≤ recommendations.length ∧ recommendations.length ≤ 10 :=
  getRecommendations_length naturalExample mockCollaborators "" mockAssessments rfl (by decide)

theorem mem_skillKeys (skill : Skill) : skill ∈ skillKeys := by
  cases skill <;> decide

theorem tokenFound_iff (tokens : List String) (kw : Option String) :
    tokenFound tokens kw = true ↔ ∃ token, kw = some token ∧ token ∈ tokens := by
  cases kw with
  | none => simp [tokenFound]
  | some k => simp [tokenFound]

/-- C2, as the code has it. For every text and every taxonomy category, the
category is in `extractFeatures(text).skills` if and only if, for some keyword
of the category (any of them, not only the first), the first stemmed token of
that keyword occurs in the normalized token sequence of the text. -/
theorem extractFeatures_skills_iff (nat : Natural) (text : String) (skill : Skill) :
    skill ∈ (extractFeatures nat text).skills ↔
      ∃ keyword ∈ skillKeywords skill, ∃ token,
        (preprocessText nat keyword).head? = some token ∧ token ∈ preprocessText nat text := by
  simp only [extractFeatures, List.mem_filter, mem_skillKeys, true_and, List.any_eq_true,
    tokenFound_iff, List.mem_map]
  constructor
  · rintro ⟨first, ⟨keyword, hkeyword, rfl⟩, token, htoken, hmem⟩
    exact ⟨keyword, hkeyword, token, htoken, hmem⟩
  · rintro ⟨keyword, hkeyword, token, htoken, hmem⟩
    exact ⟨_, ⟨keyword, hkeyword, rfl⟩, token, htoken, hmem⟩

/-- C2, counterexample. For the text `software engineer` the category
`programming` is reported, although the stem `code` of its first keyword
`coding` is not among the tokens `softwar`, `engin` of the text. -/
theorem extractFeatures_skills_first_keyword_counterexample :
    Skill.programming ∈ (extractFeatures naturalExample "software engineer").skills ∧
      firstKeywordFound naturalExample "software engineer" Skill.programming = false ∧
      (skillKeywords Skill.programming).head? = some "coding" ∧
      preprocessText naturalExample "coding" = ["code"] ∧
      preprocessText naturalExample "software engineer" = ["softwar", "engin"] := by
  decide


theorem digitValue_of_isDigit (radix : Nat) (c : Char) (h : isDigit c = true) :
    digitValue radix c = some (c.toNat - 48) := by
  simp only [isDigit, Bool.and_eq_true, decide_eq_true_eq] at h
  simp [digitValue, h]

theorem digitValue_ten_of_not_isDigit (c : Char) (h : isDigit c = false) :
    digitValue 10 c = none := by
  simp only [isDigit, Bool.and_eq_false_iff, decide_eq_false_iff_not] at h
  have h1 : ¬ (48 ≤ c.toNat ∧ c.toNat ≤ 57) := by
    rintro ⟨h2, h3⟩
    rcases h with h | h
    · exact h h2
    · exact h h3
  simp [digitValue, h1]

theorem readDigits_ten (acc : Nat) (seen : Bool) (cs : List Char) :
    readDigits 10 acc seen cs =
      if seen || !(cs.takeWhile isDigit).isEmpty then
        some ((cs.takeWhile isDigit).foldl (fun a c => 10 * a + (c.toNat - 48)) acc)
      else none := by
  induction cs generalizing acc seen with
  | nil => cases seen <;> simp [readDigits]
  | cons c rest ih =>
    cases hc : isDigit c with
    | true =>
      simp [readDigits, digitValue_of_isDigit 10 c hc, ih, List.takeWhile_cons, hc]
    | false =>
      cases seen <;>
        simp [readDigits, digitValue_ten_of_not_isDigit c hc, List.takeWhile_cons, hc]

theorem isWhiteSpace_of_isDigit (c : Char) (h : isDigit c = true) : isWhiteSpace c = false := by
  simp only [isDigit, Bool.and_eq_true, decide_eq_true_eq] at h
  simp only [isWhiteSpace, Bool.or_eq_false_iff, Bool.and_eq_false_iff, beq_eq_false_iff_ne,
    decide_eq_false_iff_not]
  omega

theorem isDigit_ne (c : Char) (h : isDigit c = true) (d : Char) (hd : isDigit d = false) :
    c ≠ d := by
  rintro rfl
  rw [h] at hd
  exact Bool.noConfusion hd

/-- What `parseInt` reads from a string that starts with an integer: that
integer, except that a string starting with `0x` or `0X` is read in radix 16
(or not at all), its leading integer being `0`. -/
theorem parseInt_of_leadingInteger (s : String) (n : Nat) (h : leadingInteger s = some n) :
    parseInt s = some (n : Int) ∨ n = 0 := by
  unfold leadingInteger at h
  split at h
  · exact absurd h (by simp)
  · rename_i hne
    simp only [Option.some.injEq] at h
    cases hs : s.data with
    | nil => simp [hs] at hne
    | cons c rest =>
      rw [hs] at hne h
      have hc : isDigit c = true := by
        by_contra hc
        simp [List.takeWhile_cons, hc] at hne
      have hws := isWhiteSpace_of_isDigit c hc
      have hminus : c ≠ '-' := isDigit_ne c hc '-' (by decide)
      have hplus : c ≠ '+' := isDigit_ne c hc '+' (by decide)
      have hparse : parseInt s = (parseUnsigned (c :: rest)).map (fun n => (n : Int)) := by
        unfold parseInt
        rw [hs, List.dropWhile_cons, hws]
        simp only [Bool.false_eq_true, if_false]
        split
        · rename_i heq
          exact absurd (List.cons.inj heq).1 hminus
        · rename_i heq
          exact absurd (List.cons.inj heq).1 hplus
        · rfl
      by_cases hhex : c = '0' ∧ ∃ rest2, rest = 'x' :: rest2 ∨ rest = 'X' :: rest2
      · right
        obtain ⟨rfl, rest2, rfl | rfl⟩ := hhex
        · rw [← h]
          have hx : isDigit 'x' = false := by decide
          simp [List.takeWhile_cons, hc, hx, decimalValue]
        · rw [← h]
          have hx : isDigit 'X' = false := by decide
          simp [List.takeWhile_cons, hc, hx, decimalValue]
      · left
        have hdec : parseUnsigned (c :: rest) = readDigits 10 0 false (c :: rest) := by
          unfold parseUnsigned
          split
          · rename_i heq
            exact absurd ⟨(List.cons.inj heq).1, _, Or.inl (List.cons.inj heq).2⟩ hhex
          · rename_i heq
            exact absurd ⟨(List.cons.inj heq).1, _, Or.inr (List.cons.inj heq).2⟩ hhex
          · rfl
        rw [hparse, hdec, readDigits_ten]
        simp only [Bool.false_or, hne, Bool.not_false, if_true, Option.map_some', ← h,
          decimalValue]
        simp

/-- The duration rule for a constraint other than `0`: every record kept by
`ruleBasedFiltering` whose duration string starts with an integer of at most
`2^53` has that integer at most the constraint. -/
theorem ruleBasedFiltering_duration_le (catalog : List Assessment) (features : Features)
    (maxDuration : Int) (hmax : features.maxDuration = some maxDuration) (hpos : 0 < maxDuration)
    (r : Assessment) (hr : r ∈ ruleBasedFiltering catalog features) (n : Nat)
    (hn : leadingInteger r.duration = some n) (_hbound : n ≤ 2 ^ 53) :
    (n : Int) ≤ maxDuration := by
  have hkeep : keepAssessment features r = true := (List.mem_filter.mp hr).2
  have hexceeds : exceedsDuration features r = false := by
    unfold keepAssessment at hkeep
    by_contra hex
    simp [hex] at hkeep
  rcases parseInt_of_leadingInteger r.duration n hn with hparse | hzero
  · unfold exceedsDuration at hexceeds
    rw [hmax] at hexceeds
    simp only [hparse, ne_of_gt hpos, if_false, decide_eq_false_iff_not, not_lt] at hexceeds
    exact hexceeds
  · subst hzero
    exact le_of_lt hpos

/-- C3 at the constraint `0`. The query `0 min` yields `maxDuration = 0`, and
filtering the test catalog with its features keeps all three records, whose
durations start with 35, 60 and 45. -/
theorem ruleBasedFiltering_zero_duration_keeps_all :
    (extractFeatures naturalExample "0 min").maxDuration = some 0 ∧
      ruleBasedFiltering mockAssessments (extractFeatures naturalExample "0 min") =
        mockAssessments ∧
      mockAssessments.map (fun r => leadingInteger r.duration) = [some 35, some 60, some 45] := by
  decide


theorem includes_iff (haystack needle : String) :
    includes (toLowerCase haystack) (toLowerCase needle) = true ↔
      SubstringIgnoreCase needle haystack := by
  unfold includes SubstringIgnoreCase
  exact includesChars_iff _ _

theorem matchesSkills_iff (skills : List Skill) (assessment : Assessment) :
    matchesSkills skills assessment = true ↔
      ∃ skill ∈ skills, ∃ keyword ∈ skillKeywords skill,
        SubstringIgnoreCase keyword (assessment.name ++ " " ++ assessment.testType) := by
  simp only [matchesSkills, assessmentText, List.any_eq_true, includes_iff]

theorem keepAssessment_iff (features : Features) (hmax : features.maxDuration = none)
    (assessment : Assessment) :
    keepAssessment features assessment = true ↔
      SkillRule features.skills (assessment.name ++ " " ++ assessment.testType) := by
  have hexceeds : exceedsDuration features assessment = false := by
    simp [exceedsDuration, hmax]
  unfold keepAssessment SkillRule
  rw [hexceeds]
  simp only [Bool.false_eq_true, if_false, List.length_eq_zero]
  by_cases hskills : features.skills = []
  · simp [hskills]
  · simp only [hskills, if_false, false_or]
    exact matchesSkills_iff features.skills assessment

/-- C4, as the code has it. For every record list and every features value
with no `maxDuration`, `ruleBasedFiltering` returns, in input order, exactly the
records that satisfy the skill rule: all records when `features.skills` is
empty; otherwise those for which some keyword of some category in
`features.skills` is a case-insensitive substring of the record's name and
testType joined by a single space. -/
theorem ruleBasedFiltering_skill_rule (records : List Assessment) (features : Features)
    (hmax : features.maxDuration = none) :
    ∃ keep : Assessment → Bool,
      (∀ r, keep r = true ↔ SkillRule features.skills (r.name ++ " " ++ r.testType)) ∧
      ruleBasedFiltering records features = records.filter keep :=
  ⟨keepAssessment features, keepAssessment_iff features hmax, rfl⟩

theorem ruleBasedFiltering_skill_rule_witness :
    (extractFeatures naturalExample "leadership role").maxDuration = none ∧
    ∃ keep : Assessment → Bool,
      (∀ r, keep r = true ↔
        SkillRule (extractFeatures naturalExample "leadership role").skills
          (r.name ++ " " ++ r.testType)) ∧
      ruleBasedFiltering mockAssessments (extractFeatures naturalExample "leadership role") =
        mockAssessments.filter keep :=
  ⟨by decide, ruleBasedFiltering_skill_rule mockAssessments
    (extractFeatures naturalExample "leadership role") (by decide)⟩

/-- C4, counterexample. With the category `leadership` detected and no
duration constraint, the record named `Agile Team` of test type
`Lead Assessment` is kept, the keyword `team lead` occurring in
`agile team lead assessment`; no keyword of the category is a substring of the
concatenation `Agile TeamLead Assessment` of its name and testType. -/
theorem ruleBasedFiltering_concatenation_counterexample :
    (extractFeatures naturalExample "leadership role").maxDuration = none ∧
      (extractFeatures naturalExample "leadership role").skills = [Skill.leadership] ∧
      ruleBasedFiltering [teamLeadAssessment] (extractFeatures naturalExample "leadership role") =
        [teamLeadAssessment] ∧
      ¬ SkillRule (extractFeatures naturalExample "leadership role").skills
        (teamLeadAssessment.name ++ teamLeadAssessment.testType) := by
  refine ⟨by decide, by decide, by decide, ?_⟩
  have hskills :
      (extractFeatures naturalExample "leadership role").skills = [Skill.leadership] := by
    decide
  rw [hskills]
  rintro (h | ⟨skill, hskill, keyword, hkeyword, hsub⟩)
  · exact absurd h (by decide)
  · rw [← includes_iff] at hsub
    have hall : ∀ s ∈ [Skill.leadership], ∀ k ∈ skillKeywords s,
        includes (toLowerCase (teamLeadAssessment.name ++ teamLeadAssessment.testType))
          (toLowerCase k) = false := by decide
    rw [hall skill hskill keyword hkeyword] at hsub
    exact Bool.noConfusion hsub


/-- The score paired with a candidate is the measure of its document, the
document `i + 1` of the corpus, and `0` when no measure is reported for it. -/
theorem similarityScores_getElem (nat : Natural) (assessments : List Assessment)
    (query : String) (i : Nat) (hi : i < assessments.length) :
    (similarityScores nat assessments query)[i]? =
      some { assessment := assessments.get ⟨i, hi⟩,
             score := (nat.tfidfs (corpus nat assessments query)
               (joinWords (preprocessText nat query))).getD (i + 1) (JsNumber.finite 0) } := by
  simp [similarityScores, List.getElem?_mapIdx, List.getElem?_eq_getElem hi]

/-- On finite scores the comparator of `mlBasedRanking` leaves `a` before `b`
exactly when the score of `b` is at most the score of `a`. -/
theorem comparator_iff (a b : Scored) (p q : ℚ) (ha : a.score = JsNumber.finite p)
    (hb : b.score = JsNumber.finite q) :
    isPositive (jsSub b.score a.score) = false ↔
      numberValue b.score ≤ numberValue a.score := by
  rw [ha, hb]
  simp only [jsSub, isPositive, numberValue, decide_eq_false_iff_not, not_lt, sub_nonpos]

theorem orderedInsert_congr {α : Type} (r₁ r₂ : α → α → Prop) [DecidableRel r₁]
    [DecidableRel r₂] (a : α) (l : List α) (h : ∀ b ∈ l, r₁ a b ↔ r₂ a b) :
    l.orderedInsert r₁ a = l.orderedInsert r₂ a := by
  induction l with
  | nil => rfl
  | cons b rest ih =>
    have hb := h b (List.mem_cons_self b rest)
    have hrest := ih (fun c hc => h c (List.mem_cons_of_mem b hc))
    by_cases hr : r₁ a b
    · simp only [List.orderedInsert, hr, hb.mp hr, if_true]
    · have hr2 : ¬ r₂ a b := fun h2 => hr (hb.mpr h2)
      simp only [List.orderedInsert, hr, hr2, if_false, hrest]

/-- Two relations that agree on the elements of a list sort it alike. -/
theorem insertionSort_congr {α : Type} (r₁ r₂ : α → α → Prop) [DecidableRel r₁]
    [DecidableRel r₂] (l : List α) (h : ∀ a ∈ l, ∀ b ∈ l, r₁ a b ↔ r₂ a b) :
    l.insertionSort r₁ = l.insertionSort r₂ := by
  induction l with
  | nil => rfl
  | cons a rest ih =>
    have hrest := ih (fun x hx y hy =>
      h x (List.mem_cons_of_mem a hx) y (List.mem_cons_of_mem a hy))
    simp only [List.insertionSort, hrest]
    apply orderedInsert_congr
    intro b hb
    have hb2 : b ∈ rest := (List.perm_insertionSort r₂ rest).mem_iff.mp hb
    exact h a (List.mem_cons_self a rest) b (List.mem_cons_of_mem a hb2)

theorem sorted_mlBasedRanking (nat : Natural) (assessments : List Assessment) (query : String)
    (hfinite : ∀ item ∈ similarityScores nat assessments query,
      ∃ q, item.score = JsNumber.finite q) :
    (mlBasedRanking nat assessments query).Pairwise
      (fun a b => numberValue b.score ≤ numberValue a.score) := by
  haveI : IsTotal Scored (fun a b => numberValue b.score ≤ numberValue a.score) :=
    ⟨fun a b => le_total (numberValue b.score) (numberValue a.score)⟩
  haveI : IsTrans Scored (fun a b => numberValue b.score ≤ numberValue a.score) :=
    ⟨fun a b c hab hbc => le_trans hbc hab⟩
  have hsame : mlBasedRanking nat assessments query =
      (similarityScores nat assessments query).insertionSort
        (fun a b => numberValue b.score ≤ numberValue a.score) := by
    unfold mlBasedRanking sort
    apply insertionSort_congr
    intro a ha b hb
    obtain ⟨p, hp⟩ := hfinite a ha
    obtain ⟨q, hq⟩ := hfinite b hb
    exact comparator_iff a b p q hp hq
  rw [hsame]
  exact List.sorted_insertionSort
    (fun a b : Scored => numberValue b.score ≤ numberValue a.score)
    (similarityScores nat assessments query)

theorem comparator_self (s : JsNumber) : isPositive (jsSub s s) = false := by
  cases s <;> simp [jsSub, isPositive]

/-- The sort is stable: the items of one score keep their input order. -/
theorem stable_mlBasedRanking (nat : Natural) (assessments : List Assessment) (query : String)
    (s : JsNumber) :
    (mlBasedRanking nat assessments query).filter (fun item => decide (item.score = s)) =
      (similarityScores nat assessments query).filter (fun item => decide (item.score = s)) := by
  have hsub : List.Sublist
      ((similarityScores nat assessments query).filter (fun item => decide (item.score = s)))
      (mlBasedRanking nat assessments query) := by
    apply List.sublist_insertionSort
    · rw [List.pairwise_iff_forall_sublist]
      intro a b hab
      have ha := hab.subset (List.mem_cons_self a [b])
      have hb := hab.subset (List.mem_cons_of_mem a (List.mem_singleton_self b))
      simp only [List.mem_filter, decide_eq_true_eq] at ha hb
      show isPositive (jsSub b.score a.score) = false
      rw [ha.2, hb.2]
      exact comparator_self s
    · exact List.filter_sublist _
  have hsub2 := hsub.filter (fun item => decide (item.score = s))
  rw [List.filter_filter] at hsub2
  simp only [Bool.and_self] at hsub2
  have hperm := (perm_sort (fun a b : Scored => jsSub b.score a.score)
    (similarityScores nat assessments query)).filter (fun item => decide (item.score = s))
  exact (hsub2.eq_of_length hperm.length_eq.symm).symm

/-- Two lists of finite scores in non-increasing score order that have, for
every score, the same items of that score in the same order, are equal. -/
theorem eq_of_sorted_of_filter_eq (l₁ l₂ : List Scored)
    (hf₁ : ∀ item ∈ l₁, ∃ q, item.score = JsNumber.finite q)
    (hf₂ : ∀ item ∈ l₂, ∃ q, item.score = JsNumber.finite q)
    (h₁ : l₁.Pairwise (fun a b => numberValue b.score ≤ numberValue a.score))
    (h₂ : l₂.Pairwise (fun a b => numberValue b.score ≤ numberValue a.score))
    (h : ∀ s : JsNumber, l₁.filter (fun item => decide (item.score = s)) =
      l₂.filter (fun item => decide (item.score = s))) : l₁ = l₂ := by
  have hmem : ∀ (m₁ m₂ : List Scored),
      (∀ s : JsNumber, m₁.filter (fun item => decide (item.score = s)) =
        m₂.filter (fun item => decide (item.score = s))) → ∀ x ∈ m₁, x ∈ m₂ := by
    intro m₁ m₂ hm x hx
    have hx1 : x ∈ m₁.filter (fun item => decide (item.score = x.score)) := by
      simp [List.mem_filter, hx]
    rw [hm] at hx1
    exact (List.mem_filter.mp hx1).1
  induction l₁ generalizing l₂ with
  | nil =>
    cases l₂ with
    | nil => rfl
    | cons b t₂ =>
      exact absurd (hmem (b :: t₂) [] (fun s => (h s).symm) b (List.mem_cons_self b t₂))
        (List.not_mem_nil b)
  | cons a t₁ ih =>
    cases l₂ with
    | nil => exact absurd (hmem (a :: t₁) [] h a (List.mem_cons_self a t₁)) (List.not_mem_nil a)
    | cons b t₂ =>
      have hab : numberValue b.score ≤ numberValue a.score := by
        have hb := hmem (b :: t₂) (a :: t₁) (fun s => (h s).symm) b (List.mem_cons_self b t₂)
        rcases List.mem_cons.mp hb with hb | hb
        · rw [hb]
        · exact List.rel_of_pairwise_cons h₁ hb
      have hba : numberValue a.score ≤ numberValue b.score := by
        have ha := hmem (a :: t₁) (b :: t₂) h a (List.mem_cons_self a t₁)
        rcases List.mem_cons.mp ha with ha | ha
        · rw [ha]
        · exact List.rel_of_pairwise_cons h₂ ha
      have hscore : a.score = b.score := by
        obtain ⟨p, hp⟩ := hf₁ a (List.mem_cons_self a t₁)
        obtain ⟨q, hq⟩ := hf₂ b (List.mem_cons_self b t₂)
        rw [hp, hq] at hab hba
        simp only [numberValue] at hab hba
        rw [hp, hq, le_antisymm hba hab]
      have hhead := h a.score
      simp only [List.filter_cons, decide_True, if_true, hscore.symm, List.cons.injEq] at hhead
      obtain ⟨rfl, -⟩ := hhead
      congr 1
      apply ih t₂ (fun x hx => hf₁ x (List.mem_cons_of_mem a hx))
        (fun x hx => hf₂ x (List.mem_cons_of_mem a hx)) (List.Pairwise.of_cons h₁)
        (List.Pairwise.of_cons h₂)
      intro s
      have hs := h s
      by_cases hsa : a.score = s
      · simp only [List.filter_cons, hsa, decide_True, if_true, List.cons.injEq, true_and] at hs
        exact hs
      · simp only [List.filter_cons, hsa, decide_False, Bool.false_eq_true, if_false] at hs
        exact hs

/-- The ranking when every measure is a finite number: `mlBasedRanking` returns
a permutation of the candidates, each paired with the measure of its document,
ordered by non-increasing score, in which the candidates of equal score keep
their relative input order; and this determines the result. -/
theorem mlBasedRanking_sorted_stable_of_finite (nat : Natural) (assessments : List Assessment)
    (query : String)
    (hfinite : ∀ item ∈ similarityScores nat assessments query,
      ∃ q, item.score = JsNumber.finite q) :
    (mlBasedRanking nat assessments query).Perm (similarityScores nat assessments query) ∧
    (similarityScores nat assessments query).map (fun item => item.assessment) = assessments ∧
    (∀ (i : Nat) (hi : i < assessments.length),
      (similarityScores nat assessments query)[i]? =
        some { assessment := assessments.get ⟨i, hi⟩,
               score := (nat.tfidfs (corpus nat assessments query)
                 (joinWords (preprocessText nat query))).getD (i + 1) (JsNumber.finite 0) }) ∧
    (mlBasedRanking nat assessments query).Pairwise
      (fun a b => numberValue b.score ≤ numberValue a.score) ∧
    (∀ s : JsNumber,
      (mlBasedRanking nat assessments query).filter (fun item => decide (item.score = s)) =
        (similarityScores nat assessments query).filter (fun item => decide (item.score = s))) ∧
    (∀ ranked : List Scored,
      ranked.Perm (similarityScores nat assessments query) →
      ranked.Pairwise (fun a b => numberValue b.score ≤ numberValue a.score) →
      (∀ s : JsNumber, ranked.filter (fun item => decide (item.score = s)) =
        (similarityScores nat assessments query).filter (fun item => decide (item.score = s))) →
      ranked = mlBasedRanking nat assessments query) := by
  refine ⟨perm_sort _ _, map_assessment_similarityScores nat assessments query,
    similarityScores_getElem nat assessments query,
    sorted_mlBasedRanking nat assessments query hfinite,
    stable_mlBasedRanking nat assessments query, ?_⟩
  intro ranked hperm hsorted hstable
  apply eq_of_sorted_of_filter_eq ranked _ _ _ hsorted
    (sorted_mlBasedRanking nat assessments query hfinite)
  · intro s
    rw [hstable s, stable_mlBasedRanking nat assessments query s]
  · intro item hitem
    exact hfinite item (hperm.mem_iff.mp hitem)
  · intro item hitem
    exact hfinite item ((perm_sort _ _).mem_iff.mp hitem)

/-- C5 on scores that are `NaN`. For the query `java constructor` the four
records of `constructorCatalog` get the scores `NaN`, 2.2231, `NaN`, 3.2231;
every comparison with a `NaN` score gives `NaN`, and `mlBasedRanking` returns
the records in their input order, the score 2.2231 before the score 3.2231. -/
theorem mlBasedRanking_nan_scores_unsorted :
    (mlBasedRanking naturalConstructor constructorCatalog "java constructor").map
        (fun item => (item.assessment.name, item.score)) =
      [("Alpha", JsNumber.nan), ("Constructor Basics", JsNumber.finite (22231 / 10000)),
       ("Gamma", JsNumber.nan), ("Java Constructor", JsNumber.finite (32231 / 10000))] ∧
    (mlBasedRanking naturalConstructor constructorCatalog "java constructor").map
        (fun item => item.assessment) = constructorCatalog := by
  have hscores : similarityScores naturalConstructor constructorCatalog "java constructor" =
      [{ assessment := constructorCatalog.get ⟨0, by decide⟩, score := JsNumber.nan },
       { assessment := constructorCatalog.get ⟨1, by decide⟩,
         score := JsNumber.finite (22231 / 10000) },
       { assessment := constructorCatalog.get ⟨2, by decide⟩, score := JsNumber.nan },
       { assessment := constructorCatalog.get ⟨3, by decide⟩,
         score := JsNumber.finite (32231 / 10000) }] := rfl
  simp only [mlBasedRanking, sort, hscores, List.insertionSort, List.orderedInsert, jsSub,
    isPositive, if_true]
  exact ⟨rfl, rfl⟩

/-- C6, as the code has it. For every input, when `isUrl` is true and the
content fetch fails, `getRecommendations` fails with the generic error
`Failed to generate recommendations`, whatever the error of the fetch and of
`fetchUrlContent` was, and returns no recommendation list; every other failure
of the request gives that same error. -/
theorem getRecommendations_fetch_failure (nat : Natural) (io : Collaborators) (input : String)
    (e : String) (hfetch : io.fetch input = Except.error e) :
    fetchUrlContent io input = Except.error "Failed to fetch URL content" ∧
    getRecommendations nat io input true = Except.error "Failed to generate recommendations" ∧
    (∀ recommendations, getRecommendations nat io input true ≠ Except.ok recommendations) ∧
    (∀ (io2 : Collaborators) (input2 : String) (isUrl : Bool) (e2 : String),
      getRecommendationsBody nat io2 input2 isUrl = Except.error e2 →
      getRecommendations nat io2 input2 isUrl =
        Except.error "Failed to generate recommendations") := by
  have hcontent : fetchUrlContent io input = Except.error "Failed to fetch URL content" := by
    simp [fetchUrlContent, hfetch]
  have hresult : getRecommendations nat io input true =
      Except.error "Failed to generate recommendations" := by
    simp [getRecommendations, getRecommendationsBody, hcontent]
  refine ⟨hcontent, hresult, ?_, ?_⟩
  · intro recommendations h
    rw [hresult] at h
    exact Except.noConfusion h
  · intro io2 input2 isUrl e2 hbody
    simp [getRecommendations, hbody]

theorem getRecommendations_fetch_failure_witness :
    mockCollaborators.fetch "https://unreachable.invalid/job" =
      Except.error "getaddrinfo ENOTFOUND" ∧
    fetchUrlContent mockCollaborators "https://unreachable.invalid/job" =
      Except.error "Failed to fetch URL content" ∧
    getRecommendations naturalExample mockCollaborators "https://unreachable.invalid/job" true =
      Except.error "Failed to generate recommendations" :=
  ⟨rfl,
    (getRecommendations_fetch_failure naturalExample mockCollaborators
      "https://unreachable.invalid/job" "getaddrinfo ENOTFOUND" rfl).1,
    (getRecommendations_fetch_failure naturalExample mockCollaborators
      "https://unreachable.invalid/job" "getaddrinfo ENOTFOUND" rfl).2.1⟩

/-- C6, counterexample. With a fetch that fails, `fetchUrlContent` raises the
error `Failed to fetch URL content`; `getRecommendations` does not fail with
that error but with `Failed to generate recommendations`, which is also what a
failure of the catalog provider gives. -/
theorem getRecommendations_fetch_failure_counterexample :
    fetchUrlContent mockCollaborators "https://unreachable.invalid/job" =
      Except.error "Failed to fetch URL content" ∧
    getRecommendations naturalExample mockCollaborators "https://unreachable.invalid/job" true ≠
      Except.error "Failed to fetch URL content" ∧
    getRecommendations naturalExample mockCollaborators "https://unreachable.invalid/job" true =
      getRecommendations naturalExample failingCatalog "https://www.shl.com/job" true := by
  refine ⟨rfl, ?_, rfl⟩
  intro h
  have h2 : getRecommendations naturalExample mockCollaborators
      "https://unreachable.invalid/job" true =
      Except.error "Failed to generate recommendations" := rfl
  rw [h2] at h
  exact absurd (Except.error.inj h) (by decide)


/-- A category is detected as soon as the first stemmed token of one of its
keywords is a token of the text. -/
theorem mem_skills_of_keyword (nat : Natural) (text : String) (skill : Skill)
    (keyword : String) (hkeyword : keyword ∈ skillKeywords skill) (token : String)
    (hfirst : (preprocessText nat keyword).head? = some token)
    (htoken : token ∈ preprocessText nat text) :
    skill ∈ (extractFeatures nat text).skills := by
  simp only [extractFeatures, List.mem_filter, mem_skillKeys, true_and, List.any_eq_true,
    tokenFound_iff, List.mem_map]
  exact ⟨_, ⟨keyword, hkeyword, rfl⟩, token, hfirst, htoken⟩

theorem toLowerCase_keyword (skill : Skill) :
    ∀ keyword ∈ skillKeywords skill, toLowerCase keyword = keyword := by
  cases skill <;> decide

theorem mem_recommendFrom_of_mem_filter (nat : Natural) (catalog : List Assessment)
    (queryText : String) (hlen : catalog.length ≤ 10) (r : Assessment)
    (hr : r ∈ ruleBasedFiltering catalog (extractFeatures nat queryText)) :
    r ∈ recommendFrom nat catalog queryText ∧
      (recommendFrom nat catalog queryText).length ≤ catalog.length := by
  have hpos : (ruleBasedFiltering catalog (extractFeatures nat queryText)).length > 0 :=
    List.length_pos_of_mem hr
  have hfor : assessmentsForRanking nat catalog queryText =
      ruleBasedFiltering catalog (extractFeatures nat queryText) := by
    unfold assessmentsForRanking
    simp only [hpos, if_true]
  have hle : (ruleBasedFiltering catalog (extractFeatures nat queryText)).length ≤
      catalog.length := List.length_filter_le _ _
  have hranked : (mlBasedRanking nat (ruleBasedFiltering catalog (extractFeatures nat queryText))
      queryText).length ≤ 10 := by
    rw [length_mlBasedRanking]
    omega
  constructor
  · rw [recommendFrom_eq, hfor, List.take_of_length_le hranked]
    exact (perm_mlBasedRanking nat _ queryText).mem_iff.mpr hr
  · rw [length_recommendFrom, hfor]
    omega

/-- C7. For every catalog of at most 10 records and every query text with
`isUrl = false` that yields no duration constraint and has among its words a
single-word keyword of a taxonomy category, every catalog record whose
lower-cased name or testType contains some keyword of that category is in the
list returned by `getRecommendations`, hence among its first 3 records when
the catalog has at most 3. -/
theorem getRecommendations_contains_matching (nat : Natural) (io : Collaborators)
    (queryText : String) (catalog : List Assessment) (skill : Skill) (keyword : String)
    (r : Assessment) (hcatalog : io.getAssessments = Except.ok catalog)
    (hlen : catalog.length ≤ 10)
    (hduration : (extractFeatures nat queryText).maxDuration = none)
    (hkeyword : keyword ∈ skillKeywords skill)
    (hsingle : nat.tokenize (toLowerCase keyword) = [keyword])
    (hword : keyword ∈ nat.tokenize (toLowerCase queryText))
    (hr : r ∈ catalog)
    (hmatch : ∃ other ∈ skillKeywords skill,
      includes (toLowerCase r.name) other = true ∨
        includes (toLowerCase r.testType) other = true) :
    ∃ recommendations,
      getRecommendations nat io queryText false = Except.ok recommendations ∧
      r ∈ recommendations ∧ (catalog.length ≤ 3 → r ∈ recommendations.take 3) := by
  have hskill : skill ∈ (extractFeatures nat queryText).skills := by
    apply mem_skills_of_keyword nat queryText skill keyword hkeyword (nat.stem keyword)
    · simp [preprocessText, hsingle]
    · exact List.mem_map_of_mem nat.stem hword
  have hkeep : keepAssessment (extractFeatures nat queryText) r = true := by
    rw [keepAssessment_iff _ hduration]
    right
    obtain ⟨other, hother, hinc⟩ := hmatch
    refine ⟨skill, hskill, other, hother, ?_⟩
    rw [← includes_iff, toLowerCase_keyword skill other hother, toLowerCase_append,
      toLowerCase_append]
    rcases hinc with hinc | hinc
    · rw [String.append_assoc]
      exact includes_append_left _ _ _ hinc
    · exact includes_append_right _ _ _ hinc
  have hfiltered : r ∈ ruleBasedFiltering catalog (extractFeatures nat queryText) :=
    List.mem_filter.mpr ⟨hr, hkeep⟩
  obtain ⟨hmem, hlength⟩ :=
    mem_recommendFrom_of_mem_filter nat catalog queryText hlen r hfiltered
  refine ⟨recommendFrom nat catalog queryText,
    getRecommendations_text nat io queryText catalog hcatalog, hmem, ?_⟩
  intro h3
  rw [List.take_of_length_le (le_trans hlength h3)]
  exact hmem

theorem getRecommendations_contains_matching_witness :
    (∃ recommendations,
      getRecommendations naturalExample mockCollaborators
        "Team manager position requiring leadership and team building skills" false =
        Except.ok recommendations ∧
      leadershipAssessment ∈ recommendations ∧
      (mockAssessments.length ≤ 3 → leadershipAssessment ∈ recommendations.take 3)) ∧
    (∃ recommendations,
      getRecommendations naturalExample mockCollaborators
        "Looking for a software engineer with JavaScript and React experience" false =
        Except.ok recommendations ∧
      codingProAssessment ∈ recommendations ∧
      (mockAssessments.length ≤ 3 → codingProAssessment ∈ recommendations.take 3)) :=
  ⟨getRecommendations_contains_matching naturalExample mockCollaborators
      "Team manager position requiring leadership and team building skills" mockAssessments
      Skill.leadership "leadership" (leadershipAssessment) rfl (by decide)
      (by decide) (by decide) (by decide) (by decide) (by decide)
      ⟨"leadership", by decide, Or.inl (by decide)⟩,
    getRecommendations_contains_matching naturalExample mockCollaborators
      "Looking for a software engineer with JavaScript and React experience" mockAssessments
      Skill.programming "software" (codingProAssessment) rfl (by decide)
      (by decide) (by decide) (by decide) (by decide) (by decide)
      ⟨"coding", by decide, Or.inl (by decide)⟩⟩


theorem contains_relevantIds (relevantAssessments : List Assessment) (name : String) :
    (relevantIds relevantAssessments).contains name =
      decide (name ∈ relevantAssessments.map (fun a => a.name)) := by
  rw [Bool.eq_iff_iff]
  simp [relevantIds]

theorem relevantIds_ne_nil (relevantAssessments : List Assessment)
    (h : relevantAssessments ≠ []) : (relevantIds relevantAssessments).length ≠ 0 := by
  cases relevantAssessments with
  | nil => exact absurd rfl h
  | cons a rest =>
    intro hlen
    have hmem : a.name ∈ relevantIds (a :: rest) := by simp [relevantIds]
    rw [List.length_eq_zero.mp hlen] at hmem
    exact List.not_mem_nil _ hmem

theorem calculateMetrics_recall_general (recommendations relevantAssessments : List Assessment) :
    (calculateMetrics recommendations relevantAssessments).recall =
      jsDiv (relevantRecommendations recommendations relevantAssessments : ℚ)
        ((min (relevantIds relevantAssessments).length 3 : Nat) : ℚ) := by
  simp only [calculateMetrics, relevantRecommendations, contains_relevantIds, topK]

theorem length_filter_mem_comm (l₁ l₂ : List String) (h₁ : l₁.Nodup) (h₂ : l₂.Nodup) :
    (l₁.filter (fun x => l₂.contains x)).length =
      (l₂.filter (fun x => l₁.contains x)).length := by
  apply List.Perm.length_eq
  rw [List.perm_ext_iff_of_nodup (h₁.filter _) (h₂.filter _)]
  intro x
  have hcontains : ∀ (l : List String) (y : String), l.contains y = true ↔ y ∈ l := by
    intro l y
    simp
  simp only [List.mem_filter, hcontains]
  tauto

/-- The loop of `calculateMetrics`, by the outcome of its three tests. -/
theorem mapLoop_eq (ids : List String) (top : List Assessment) :
    mapLoop ids top =
      mapStep ids top (mapStep ids top (mapStep ids top (0, 0) 0) 1) 2 := rfl

/-- The literal cases of the specification: `[A, B, C]` against `{A}` gives
recall 1 and map 1, `[B, A, C]` gives recall 1 and map 1/2, `[B, C, D]` gives
recall 0 and map 0. -/
theorem calculateMetrics_literal_cases :
    calculateMetrics [named "A", named "B", named "C"] [named "A"] =
      { «recall» := JsNumber.finite 1, map := JsNumber.finite 1 } ∧
    calculateMetrics [named "B", named "A", named "C"] [named "A"] =
      { «recall» := JsNumber.finite 1, map := JsNumber.finite (1 / 2) } ∧
    calculateMetrics [named "B", named "C", named "D"] [named "A"] =
      { «recall» := JsNumber.finite 0, map := JsNumber.finite 0 } := by
  have hids : relevantIds [named "A"] = ["A"] := by decide
  have hA : (["A"] : List String).contains (named "A").name = true := by decide
  have hB : (["A"] : List String).contains (named "B").name = false := by decide
  have hC : (["A"] : List String).contains (named "C").name = false := by decide
  have hD : (["A"] : List String).contains (named "D").name = false := by decide
  refine ⟨?_, ?_, ?_⟩ <;>
    simp only [calculateMetrics, mapLoop_eq, mapStep, hasRelevantAt, hids, topK, List.take,
      List.get?, List.filter_cons, List.filter_nil, hA, hB, hC, hD] <;>
    norm_num [jsDiv]

/-- C8, as the code has it. For every recommendations list and every non-empty
relevant list, `calculateMetrics` returns recall = (number of the first 3
recommendations whose name is a relevant name) / min(number of distinct
relevant names, 3); the numerator is the number of relevant names present among
the names of the first 3 recommendations when those names are pairwise
distinct. -/
theorem calculateMetrics_recall (recommendations relevantAssessments : List Assessment)
    (hne : relevantAssessments ≠ []) :
    (calculateMetrics recommendations relevantAssessments).recall =
      JsNumber.finite ((relevantRecommendations recommendations relevantAssessments : ℚ) /
        ((min (relevantAssessments.map (fun a => a.name)).dedup.length 3 : Nat) : ℚ)) ∧
    ((topNames recommendations).Nodup →
      (calculateMetrics recommendations relevantAssessments).recall =
        JsNumber.finite (recallOfNames recommendations relevantAssessments)) ∧
    (calculateMetrics [named "A", named "B", named "C"] [named "A"]).recall =
      JsNumber.finite 1 ∧
    (calculateMetrics [named "B", named "C", named "D"] [named "A"]).recall =
      JsNumber.finite 0 := by
  have hids := relevantIds_ne_nil relevantAssessments hne
  have hmin : ((min (relevantIds relevantAssessments).length 3 : Nat) : ℚ) ≠ 0 := by
    have h : min (relevantIds relevantAssessments).length 3 ≠ 0 := by omega
    exact_mod_cast h
  have hrecall : (calculateMetrics recommendations relevantAssessments).recall =
      JsNumber.finite ((relevantRecommendations recommendations relevantAssessments : ℚ) /
        ((min (relevantIds relevantAssessments).length 3 : Nat) : ℚ)) := by
    rw [calculateMetrics_recall_general, jsDiv, if_neg hmin]
  refine ⟨hrecall, ?_, by rw [calculateMetrics_literal_cases.1],
    by rw [calculateMetrics_literal_cases.2.2]⟩
  intro hnodup
  rw [hrecall, recallOfNames, topK]
  have hcount : relevantRecommendations recommendations relevantAssessments =
      ((relevantIds relevantAssessments).filter
        (fun name => (topNames recommendations).contains name)).length := by
    rw [← length_filter_mem_comm (topNames recommendations) (relevantIds relevantAssessments)
      hnodup (List.nodup_dedup _)]
    unfold relevantRecommendations topNames
    rw [List.filter_map, List.length_map]
    congr 1
    apply List.filter_congr
    intro r _
    exact (contains_relevantIds relevantAssessments r.name).symm
  rw [hcount]

theorem calculateMetrics_recall_witness :
    [named "A"] ≠ [] ∧
    (calculateMetrics [named "A", named "B", named "C"] [named "A"]).recall =
      JsNumber.finite
        ((relevantRecommendations [named "A", named "B", named "C"] [named "A"] : ℚ) /
          ((min ([named "A"].map (fun a => a.name)).dedup.length 3 : Nat) : ℚ)) ∧
    ((topNames [named "A", named "B", named "C"]).Nodup →
      (calculateMetrics [named "A", named "B", named "C"] [named "A"]).recall =
        JsNumber.finite (recallOfNames [named "A", named "B", named "C"] [named "A"])) ∧
    (calculateMetrics [named "A", named "B", named "C"] [named "A"]).recall =
      JsNumber.finite 1 ∧
    (calculateMetrics [named "B", named "C", named "D"] [named "A"]).recall =
      JsNumber.finite 0 :=
  ⟨by decide, calculateMetrics_recall [named "A", named "B", named "C"] [named "A"] (by decide)⟩


/-- C8, counterexample. Against the relevant list `{A}`, the recommendations
`[A, A, A]` get recall 3, while one relevant name is present among the names of
the first 3 recommendations, which gives 1. -/
theorem calculateMetrics_recall_counterexample :
    (calculateMetrics [named "A", named "A", named "A"] [named "A"]).recall =
      JsNumber.finite 3 ∧
    recallOfNames [named "A", named "A", named "A"] [named "A"] = 1 := by
  constructor
  · rw [(calculateMetrics_recall_general [named "A", named "A", named "A"] [named "A"])]
    have h1 : relevantRecommendations [named "A", named "A", named "A"] [named "A"] = 3 := by
      decide
    have h2 : (relevantIds [named "A"]).length = 1 := by decide
    rw [h1, h2]
    norm_num [jsDiv]
  · have h1 : ((relevantIds [named "A"]).filter
        (fun name => (topNames [named "A", named "A", named "A"]).contains name)).length = 1 := by
      decide
    have h2 : (relevantIds [named "A"]).length = 1 := by decide
    rw [recallOfNames, h1, h2]
    norm_num [topK]

theorem hasRelevantAt_take (recommendations relevantAssessments : List Assessment) (i : Nat)
    (hi : i < 3) :
    hasRelevantAt (relevantIds relevantAssessments) (recommendations.take topK) i =
      relevantAtPosition recommendations relevantAssessments (i + 1) := by
  unfold hasRelevantAt relevantAtPosition
  rw [Nat.add_sub_cancel, List.get?_eq_getElem?, List.get?_eq_getElem?, List.getElem?_take, topK,
    if_pos hi]
  cases recommendations[i]? with
  | none => rfl
  | some r => exact contains_relevantIds relevantAssessments r.name

/-- C9. For every recommendations list and relevant list, `calculateMetrics`
returns map = (sum, over the 1-indexed positions `i ≤ 3` whose recommendation
name is in the relevant list, of `r_i / i`, where `r_i` is the number of such
positions up to and including `i`) divided by the number of such positions,
and 0 when there is none; `[B, A, C]` against `{A}` gives 1/2 and `[A, B, C]`
against `{A}` gives 1. -/
theorem calculateMetrics_map (recommendations relevantAssessments : List Assessment) :
    (calculateMetrics recommendations relevantAssessments).map =
      JsNumber.finite (mapOfPositions recommendations relevantAssessments) ∧
    (calculateMetrics [named "B", named "A", named "C"] [named "A"]).map =
      JsNumber.finite (1 / 2) ∧
    (calculateMetrics [named "A", named "B", named "C"] [named "A"]).map =
      JsNumber.finite 1 := by
  refine ⟨?_, by rw [calculateMetrics_literal_cases.2.1],
    by rw [calculateMetrics_literal_cases.1]⟩
  have h0 := hasRelevantAt_take recommendations relevantAssessments 0 (by decide)
  have h1 := hasRelevantAt_take recommendations relevantAssessments 1 (by decide)
  have h2 := hasRelevantAt_take recommendations relevantAssessments 2 (by decide)
  simp only [calculateMetrics, mapLoop_eq, mapStep, h0, h1, h2, mapOfPositions,
    relevantPositions, List.filter_cons, List.filter_nil]
  cases relevantAtPosition recommendations relevantAssessments (0 + 1) <;>
    cases relevantAtPosition recommendations relevantAssessments (1 + 1) <;>
    cases relevantAtPosition recommendations relevantAssessments (2 + 1) <;>
    norm_num [jsDiv]


theorem exists_relevantAtPosition (recommendations relevantAssessments : List Assessment)
    (h : ∃ r ∈ recommendations.take 3, r.name ∈ relevantAssessments.map (fun a => a.name)) :
    relevantAtPosition recommendations relevantAssessments 1 = true ∨
      relevantAtPosition recommendations relevantAssessments 2 = true ∨
      relevantAtPosition recommendations relevantAssessments 3 = true := by
  obtain ⟨r, hr, hname⟩ := h
  obtain ⟨i, hi, hget⟩ := List.getElem_of_mem hr
  have hi3 : i < 3 := by
    have := List.length_take_le 3 recommendations
    omega
  have hsome : recommendations[i]? = some r := by
    rw [← hget, List.getElem_take, List.getElem?_eq_getElem]
  have hat : relevantAtPosition recommendations relevantAssessments (i + 1) = true := by
    simp only [relevantAtPosition, Nat.add_sub_cancel, List.get?_eq_getElem?, hsome]
    exact decide_eq_true hname
  have hcases : i = 0 ∨ i = 1 ∨ i = 2 := by omega
  rcases hcases with rfl | rfl | rfl
  · exact Or.inl hat
  · exact Or.inr (Or.inl hat)
  · exact Or.inr (Or.inr hat)

/-- C10. For every recommendations list and relevant list such that at least
one of the first 3 recommendations has a name occurring in the relevant list,
`calculateMetrics` returns recall > 0 and map > 0. -/
theorem calculateMetrics_positive (recommendations relevantAssessments : List Assessment)
    (h : ∃ r ∈ recommendations.take 3, r.name ∈ relevantAssessments.map (fun a => a.name)) :
    ∃ recallValue mapValue : ℚ,
      (calculateMetrics recommendations relevantAssessments).recall =
        JsNumber.finite recallValue ∧ 0 < recallValue ∧
      (calculateMetrics recommendations relevantAssessments).map =
        JsNumber.finite mapValue ∧ 0 < mapValue := by
  have hne : relevantAssessments ≠ [] := by
    obtain ⟨r, -, hname⟩ := h
    rintro rfl
    exact List.not_mem_nil _ hname
  have hfound : 0 < relevantRecommendations recommendations relevantAssessments := by
    obtain ⟨r, hr, hname⟩ := h
    apply List.length_pos_of_mem (a := r)
    exact List.mem_filter.mpr ⟨hr, decide_eq_true hname⟩
  have hids := relevantIds_ne_nil relevantAssessments hne
  have hminq : ((min (relevantIds relevantAssessments).length 3 : Nat) : ℚ) ≠ 0 := by
    have hm : min (relevantIds relevantAssessments).length 3 ≠ 0 := by omega
    exact_mod_cast hm
  have hrecall : (calculateMetrics recommendations relevantAssessments).recall =
      JsNumber.finite ((relevantRecommendations recommendations relevantAssessments : ℚ) /
        ((min (relevantIds relevantAssessments).length 3 : Nat) : ℚ)) := by
    rw [calculateMetrics_recall_general, jsDiv, if_neg hminq]
  have hmap : ∃ mapValue : ℚ,
      (calculateMetrics recommendations relevantAssessments).map = JsNumber.finite mapValue ∧
        0 < mapValue := by
    have hpos := exists_relevantAtPosition recommendations relevantAssessments h
    have h0 := hasRelevantAt_take recommendations relevantAssessments 0 (by decide)
    have h1 := hasRelevantAt_take recommendations relevantAssessments 1 (by decide)
    have h2 := hasRelevantAt_take recommendations relevantAssessments 2 (by decide)
    simp only [calculateMetrics, mapLoop_eq, mapStep, h0, h1, h2]
    revert hpos
    cases relevantAtPosition recommendations relevantAssessments (0 + 1) <;>
      cases relevantAtPosition recommendations relevantAssessments (1 + 1) <;>
      cases relevantAtPosition recommendations relevantAssessments (2 + 1) <;>
      intro hpos <;> simp at hpos <;> norm_num [jsDiv]
  obtain ⟨mapValue, hmapValue, hmapPos⟩ := hmap
  refine ⟨_, mapValue, hrecall, ?_, hmapValue, hmapPos⟩
  apply div_pos
  · exact_mod_cast hfound
  · have hm : 0 < min (relevantIds relevantAssessments).length 3 := by omega
    exact_mod_cast hm

theorem calculateMetrics_positive_witness :
    (∃ r ∈ [named "SHL Coding Pro Assessment",
        named "SHL Verify Numerical Reasoning Assessment",
        named "SHL Leadership Assessment"].take 3,
      r.name ∈ [named "SHL Coding Pro Assessment", named "SHL Python Coding Assessment"].map
        (fun a => a.name)) ∧
    ∃ recallValue mapValue : ℚ,
      (calculateMetrics
        [named "SHL Coding Pro Assessment", named "SHL Verify Numerical Reasoning Assessment",
          named "SHL Leadership Assessment"]
        [named "SHL Coding Pro Assessment", named "SHL Python Coding Assessment"]).recall =
        JsNumber.finite recallValue ∧ 0 < recallValue ∧
      (calculateMetrics
        [named "SHL Coding Pro Assessment", named "SHL Verify Numerical Reasoning Assessment",
          named "SHL Leadership Assessment"]
        [named "SHL Coding Pro Assessment", named "SHL Python Coding Assessment"]).map =
        JsNumber.finite mapValue ∧ 0 < mapValue :=
  ⟨⟨named "SHL Coding Pro Assessment", by decide, by decide⟩,
    calculateMetrics_positive _ _ ⟨named "SHL Coding Pro Assessment", by decide, by decide⟩⟩

theorem hasRelevantAt_nil (top : List Assessment) (i : Nat) : hasRelevantAt [] top i = false := by
  unfold hasRelevantAt
  cases top.get? i <;> rfl

/-- C11, as the code has it. For every recommendations list,
`calculateMetrics` called with an empty relevant list raises no error: it
returns a metrics result whose recall is `NaN`, the quotient `0 / 0`, and whose
map is `0`. -/
theorem calculateMetrics_empty_relevant (recommendations : List Assessment) :
    calculateMetrics recommendations [] =
      { «recall» := JsNumber.nan, map := JsNumber.finite 0 } := by
  have hids : relevantIds [] = [] := rfl
  simp only [calculateMetrics, hids, mapLoop_eq, mapStep, hasRelevantAt_nil]
  simp [jsDiv]

/-- C11, counterexample. With the recommendations of the test file and an
empty relevant list, `calculateMetrics` returns a result, with map `0`; the
recall of that result is `NaN`. -/
theorem calculateMetrics_empty_relevant_counterexample :
    (calculateMetrics mockAssessments []).map = JsNumber.finite 0 ∧
      (calculateMetrics mockAssessments []).recall = JsNumber.nan := by
  have hids : relevantIds [] = [] := rfl
  simp only [calculateMetrics, hids, mapLoop_eq, mapStep, hasRelevantAt_nil]
  simp [jsDiv]

/-- C13. For every record list `S` and every features value `f`, filtering is
idempotent: `ruleBasedFiltering(ruleBasedFiltering(S, f), f)` is
`ruleBasedFiltering(S, f)`, the same records in the same order. -/
theorem ruleBasedFiltering_idempotent (records : List Assessment) (features : Features) :
    ruleBasedFiltering (ruleBasedFiltering records features) features =
      ruleBasedFiltering records features := by
  unfold ruleBasedFiltering
  rw [List.filter_filter]
  apply List.filter_congr
  intro r _
  exact Bool.and_self _

theorem toLower_not_unit_letter (c : Char) (h : c.toNat < 65 ∨ 122 < c.toNat) :
    c.toLower ≠ 'm' ∧ c.toLower ≠ 'h' := by
  have hlower : c.toLower = c := by
    unfold Char.toLower
    have hnot : ¬ (c.toNat ≥ 65 ∧ c.toNat ≤ 90) := by omega
    simp only [hnot, if_false]
  rw [hlower]
  constructor
  · rintro rfl
    revert h
    decide
  · rintro rfl
    revert h
    decide

theorem unitAt_cons_of_not_letter (c : Char) (rest : List Char)
    (h : c.toLower ≠ 'm' ∧ c.toLower ≠ 'h') : unitAt (c :: rest) = false := by
  have hmin : "min".data = ['m', 'i', 'n'] := rfl
  have hhour : "hour".data = ['h', 'o', 'u', 'r'] := rfl
  have hminute : "minute".data = ['m', 'i', 'n', 'u', 't', 'e'] := rfl
  have hm : ('m' == c.toLower) = false := by
    rw [beq_eq_false_iff_ne]
    exact fun heq => h.1 heq.symm
  have hh : ('h' == c.toLower) = false := by
    rw [beq_eq_false_iff_ne]
    exact fun heq => h.2 heq.symm
  simp [unitAt, startsWithIgnoreCase, hmin, hhour, hminute, List.isPrefixOf, hm, hh]

theorem unitAt_cons_of_isWhiteSpace (c : Char) (rest : List Char) (h : isWhiteSpace c = true) :
    unitAt (c :: rest) = false := by
  apply unitAt_cons_of_not_letter
  apply toLower_not_unit_letter
  simp only [isWhiteSpace, Bool.or_eq_true, Bool.and_eq_true, beq_iff_eq,
    decide_eq_true_eq] at h
  omega

theorem unitAt_cons_of_isDigit (c : Char) (rest : List Char) (h : isDigit c = true) :
    unitAt (c :: rest) = false := by
  apply unitAt_cons_of_not_letter
  apply toLower_not_unit_letter
  simp only [isDigit, Bool.and_eq_true, decide_eq_true_eq] at h
  omega

/-- Giving white space back never helps: the tail of the pattern matches
exactly when a unit stands after all the white space. -/
theorem spacesThenUnit_eq (cs : List Char) : spacesThenUnit cs = unitAfterSpaces cs := by
  induction cs with
  | nil => rfl
  | cons c rest ih =>
    unfold unitAfterSpaces at *
    cases hc : isWhiteSpace c with
    | true =>
      simp only [spacesThenUnit, hc, Bool.true_and, unitAt_cons_of_isWhiteSpace c rest hc,
        Bool.or_false, ih, List.dropWhile_cons, if_true]
    | false =>
      simp only [spacesThenUnit, hc, Bool.false_and, Bool.false_or, List.dropWhile_cons,
        Bool.false_eq_true, if_false]

/-- Giving digits back never helps: anchored at a position, the pattern
matches exactly when a unit stands, after optional white space, behind the
whole run of digits, and the capture group is then that whole run. -/
theorem durationFrom_eq (group cs : List Char) :
    durationFrom group cs =
      if !(group ++ cs.takeWhile isDigit).isEmpty && unitAfterSpaces (cs.dropWhile isDigit) then
        some (group ++ cs.takeWhile isDigit)
      else none := by
  induction cs generalizing group with
  | nil =>
    have hunit : unitAfterSpaces [] = false := rfl
    simp [durationFrom, hunit]
  | cons c rest ih =>
    cases hc : isDigit c with
    | true =>
      have hfallback : spacesThenUnit (c :: rest) = false := by
        rw [spacesThenUnit_eq, unitAfterSpaces, List.dropWhile_cons,
          isWhiteSpace_of_isDigit c hc]
        exact unitAt_cons_of_isDigit c rest hc
      simp only [durationFrom, hc, if_true, ih, hfallback, Bool.and_false, Bool.false_eq_true,
        if_false, List.takeWhile_cons, List.dropWhile_cons, List.append_assoc,
        List.singleton_append]
      split
      · rename_i heq
        exact heq.symm
      · rename_i heq
        exact heq.symm
    | false =>
      simp only [durationFrom, hc, Bool.false_eq_true, if_false, spacesThenUnit_eq,
        List.takeWhile_cons, List.dropWhile_cons, List.append_nil]

theorem durationMatch_cons_of_not_isDigit (c : Char) (rest : List Char)
    (hc : isDigit c = false) : durationMatch (c :: rest) = durationMatch rest := by
  have hnone : durationFrom [] (c :: rest) = none := by
    rw [durationFrom_eq]
    simp [List.takeWhile_cons, hc]
  simp only [durationMatch, hnone]

/-- The leftmost match of the pattern is at the first run of digits behind
which a unit stands after optional white space. -/
theorem firstRunFollowedBy_eq (run cs : List Char) :
    firstRunFollowedBy unitAfterSpaces run cs =
      match durationFrom run cs with
      | some g => some g
      | none => durationMatch cs := by
  induction cs generalizing run with
  | nil =>
    have hunit : unitAfterSpaces [] = false := rfl
    simp [firstRunFollowedBy, durationFrom, durationMatch, hunit]
  | cons c rest ih =>
    cases hc : isDigit c with
    | true =>
      have hstep : firstRunFollowedBy unitAfterSpaces run (c :: rest) =
          firstRunFollowedBy unitAfterSpaces (run ++ [c]) rest := by
        simp only [firstRunFollowedBy, hc, if_true]
      rw [hstep, ih (run ++ [c])]
      have hrun : durationFrom run (c :: rest) = durationFrom (run ++ [c]) rest := by
        rw [durationFrom_eq run, durationFrom_eq (run ++ [c])]
        simp only [List.takeWhile_cons, List.dropWhile_cons, hc, if_true, List.append_assoc,
          List.singleton_append]
      rw [hrun]
      cases hfrom : durationFrom (run ++ [c]) rest with
      | some g => rfl
      | none =>
        have hstart : durationFrom [] (c :: rest) = none := by
          rw [durationFrom_eq] at hfrom ⊢
          simp only [List.takeWhile_cons, List.dropWhile_cons, hc, if_true, List.nil_append]
          by_cases hunit : unitAfterSpaces (rest.dropWhile isDigit) = true
          · simp [hunit] at hfrom
          · simp [hunit]
        simp only [durationMatch, hstart]
    | false =>
      rw [durationMatch_cons_of_not_isDigit c rest hc, durationFrom_eq]
      simp only [firstRunFollowedBy, hc, Bool.false_eq_true, if_false, List.takeWhile_cons,
        List.dropWhile_cons, List.append_nil]
      by_cases hfollows : (!run.isEmpty && unitAfterSpaces (c :: rest)) = true
      · simp only [hfollows, if_true]
      · simp only [hfollows, if_false]
        rw [ih []]
        cases hfrom : durationFrom [] rest with
        | none => rfl
        | some g =>
          cases rest with
          | nil => simp [durationFrom] at hfrom
          | cons d rest2 => simp [durationMatch, hfrom]

theorem durationMatch_eq (cs : List Char) :
    durationMatch cs = firstRunFollowedBy unitAfterSpaces [] cs := by
  rw [firstRunFollowedBy_eq]
  cases cs with
  | nil => rfl
  | cons c rest =>
    cases hfrom : durationFrom [] (c :: rest) with
    | none => rfl
    | some g => simp only [durationMatch, hfrom]

/-- A run found by the scan is a non-empty list of digits. -/
theorem firstRunFollowedBy_digits (follows : List Char → Bool) (run cs g : List Char)
    (hrun : ∀ c ∈ run, isDigit c = true)
    (h : firstRunFollowedBy follows run cs = some g) :
    g ≠ [] ∧ ∀ c ∈ g, isDigit c = true := by
  induction cs generalizing run with
  | nil =>
    simp only [firstRunFollowedBy] at h
    split at h
    · rename_i hcond
      simp only [Option.some.injEq] at h
      subst h
      simp only [Bool.and_eq_true, Bool.not_eq_true', List.isEmpty_eq_false] at hcond
      exact ⟨by simpa using hcond.1, hrun⟩
    · exact absurd h (by simp)
  | cons c rest ih =>
    simp only [firstRunFollowedBy] at h
    split at h
    · rename_i hc
      apply ih (run ++ [c]) _ h
      intro d hd
      rcases List.mem_append.mp hd with hd | hd
      · exact hrun d hd
      · rw [List.mem_singleton.mp hd]
        exact hc
    · split at h
      · rename_i hcond
        simp only [Option.some.injEq] at h
        subst h
        simp only [Bool.and_eq_true, Bool.not_eq_true'] at hcond
        exact ⟨by simpa using hcond.1, hrun⟩
      · exact ih [] (by simp) h

/-- On a non-empty list of decimal digits `parseInt` returns its decimal value. -/
theorem parseInt_digits (g : List Char) (hne : g ≠ []) (hdigits : ∀ c ∈ g, isDigit c = true) :
    parseInt ⟨g⟩ = some ((decimalValue g : Nat) : Int) := by
  cases g with
  | nil => exact absurd rfl hne
  | cons c rest =>
    have hc : isDigit c = true := hdigits c (List.mem_cons_self c rest)
    have hws := isWhiteSpace_of_isDigit c hc
    have hminus : c ≠ '-' := isDigit_ne c hc '-' (by decide)
    have hplus : c ≠ '+' := isDigit_ne c hc '+' (by decide)
    have htake : (c :: rest).takeWhile isDigit = c :: rest :=
      List.takeWhile_eq_self_iff.mpr hdigits
    have hunsigned : parseUnsigned (c :: rest) = readDigits 10 0 false (c :: rest) := by
      unfold parseUnsigned
      split
      · rename_i heq
        have hx : isDigit 'x' = true :=
          hdigits 'x' (by rw [heq]; simp)
        exact absurd hx (by decide)
      · rename_i heq
        have hx : isDigit 'X' = true :=
          hdigits 'X' (by rw [heq]; simp)
        exact absurd hx (by decide)
      · rfl
    unfold parseInt
    simp only [List.dropWhile_cons, hws, Bool.false_eq_true, if_false]
    split
    · rename_i heq
      exact absurd (List.cons.inj heq).1 hminus
    · rename_i heq
      exact absurd (List.cons.inj heq).1 hplus
    · rw [hunsigned, readDigits_ten, htake]
      simp [decimalValue]

/-- C12, as the code has it. For every text, `extractFeatures(text).maxDuration`
is unset exactly when the text has no run of digits that is followed, after
optional white space, by the letters `min`, `hour` or `minute` in any case;
and when the first (leftmost) such run has a value of at most `2^53`,
`maxDuration` is the integer value of that run, with no unit conversion and
with later matches ignored. -/
theorem extractFeatures_maxDuration (nat : Natural) (text : String) :
    ((extractFeatures nat text).maxDuration = none ↔
      firstRunFollowedBy unitAfterSpaces [] text.data = none) ∧
    (∀ run : List Char, firstRunFollowedBy unitAfterSpaces [] text.data = some run →
      decimalValue run ≤ 2 ^ 53 →
      (extractFeatures nat text).maxDuration = some ((decimalValue run : Nat) : Int) ∧
        (extractFeatures nat text).maxDuration = firstDuration unitAfterSpaces text) := by
  have hmax : (extractFeatures nat text).maxDuration =
      match durationMatch text.data with
      | some g => parseInt ⟨g⟩
      | none => none := rfl
  rw [hmax, durationMatch_eq, firstDuration]
  cases hrun : firstRunFollowedBy unitAfterSpaces [] text.data with
  | none =>
    refine ⟨⟨fun _ => rfl, fun _ => rfl⟩, ?_⟩
    intro run h
    exact absurd h (by simp)
  | some g =>
    obtain ⟨hne, hdigits⟩ :=
      firstRunFollowedBy_digits unitAfterSpaces [] text.data g (by simp) hrun
    have hparse := parseInt_digits g hne hdigits
    refine ⟨⟨fun h => ?_, fun h => absurd h (by simp)⟩, ?_⟩
    · simp only [hparse] at h
      exact absurd h (by simp)
    · intro run h _
      simp only [Option.some.injEq] at h
      subst h
      simp only [Option.map_some']
      exact ⟨hparse, hparse⟩

theorem extractFeatures_maxDuration_witness :
    firstRunFollowedBy unitAfterSpaces [] "finish in 45 minutes or 2 hours".data =
      some ['4', '5'] ∧
    decimalValue ['4', '5'] ≤ 2 ^ 53 ∧
    (extractFeatures naturalExample "finish in 45 minutes or 2 hours").maxDuration = some 45 :=
  ⟨by decide, by decide,
    ((extractFeatures_maxDuration naturalExample "finish in 45 minutes or 2 hours").2
      ['4', '5'] (by decide) (by decide)).1⟩

/-- C12, counterexample. For `45 minutes` the duration is 45, although the run
`45` is followed by a space and not immediately by a unit. For
`45 minimum, 7min` the duration is 45, although the first run of digits that is
immediately followed by a unit, or followed by a unit that is a whole word, is
`7`. -/
theorem extractFeatures_maxDuration_counterexample :
    (extractFeatures naturalExample "45 minutes").maxDuration = some 45 ∧
    firstDuration unitAt "45 minutes" = none ∧
    (extractFeatures naturalExample "45 minimum, 7min").maxDuration = some 45 ∧
    firstDuration unitAt "45 minimum, 7min" = some 7 ∧
    firstDuration unitWordAt "45 minimum, 7min" = some 7 ∧
    firstDuration (fun cs => unitWordAt (cs.dropWhile isWhiteSpace)) "45 minimum, 7min" =
      some 7 := by
  decide


end RecommendationService
